import Mathlib

/-!
# Verification of the MassNet SpaceKeeper (poc/engine/spacekeeper/capacity/capacity.go)

Shallow embedding of the `capacity` package.  WorkSpace objects are shared
(via Go pointers) between the state indexes, the `workSpaceList` and the
plotter queue; they are modelled here as a single object store (`heap`,
the contents of `workSpaceIndex[allState]`) keyed by `SpaceID`, with the
per-state indexes, `workSpaceList` and the queue holding keys.  The spec
(§3) states that the string form of a SpaceID is a stable primary key that
is injective in the triple `(ordinal, pubkey, bit_length)`, so keying by
the triple itself is equivalent to keying by the string.

External collaborators (PoC wallet, plot backend `db`, `disk.Usage`,
`ccache`, the worker pool) are not part of the source file; they are
passed in as oracle parameters, and where their behaviour matters it is
modelled from the spec (marked in the doc comments).
-/

/-- The four real WorkSpace states (engine.Registered .. engine.Mining). -/
inductive WSState
  | registered
  | plotting
  | ready
  | mining
deriving DecidableEq, Repr

/-- Modelled from the spec: SpaceID is the triple `(ordinal, pubkey, bit_length)`
whose string form is an injective stable key (spec §3); the pubkey is abstracted
to a `Nat`. -/
structure SpaceID where
  ordinal : Nat
  pubKey : Nat
  bitLength : Nat
deriving DecidableEq, Repr

/-- The mutable per-WorkSpace fields shared by all containers:
`state` and the `using` flag (field called `usingFlag` here). -/
structure WSData where
  state : WSState
  usingFlag : Bool
deriving DecidableEq, Repr

/-- The error kinds of the capacity package (error.go is outside src/; the
names follow spec §7).  `backendErr` stands for an error bubbled up from an
external collaborator (wallet, plot backend, disk query). -/
inductive Err
  | walletIsLocked
  | spaceKeeperIsRunning
  | spaceKeeperIsNotRunning
  | spaceKeeperIsConfiguring
  | spaceKeeperChangeDBDirs
  | spaceKeeperConfiguredNothing
  | workSpaceDoesNotExist
  | workSpaceIsNotPlotting
  | workSpaceIsNotStill
  | workSpaceCannotGenerate
  | configUnderSizeTarget
  | invalidRequiredBytes
  | osDiskSizeNotEnough
  | invalidAction
  | unimplementedAction
  | backendErr (code : Nat)
deriving DecidableEq, Repr

/-- Modelled from the spec (§3): deterministic plot priority, lower state
index first, then larger bit length first, then smaller ordinal.  Encoded
as a lexicographic key (smaller key = higher priority). -/
def stateOrd : WSState → Int
  | .registered => 0
  | .plotting => 1
  | .ready => 2
  | .mining => 3

/-- Priority key of a queued WorkSpace (spec §3): `(state index, -bit_length, ordinal)`. -/
def prioKey (sid : SpaceID) (d : WSData) : Int × Int × Int :=
  (stateOrd d.state, -(sid.bitLength : Int), (sid.ordinal : Int))

/-- queuedWorkSpace: `{ws, wouldMining, priority}` (spec §3; the struct itself
lives outside src/).  The priority is snapshotted when the item is created. -/
structure QueuedWorkSpace where
  sid : SpaceID
  wouldMining : Bool
  prio : Int × Int × Int
deriving DecidableEq, Repr

/-- engine.WorkSpaceProof: the record returned by proof lookups.  The backend
error (if any) is embedded in the `error` field (an abstract code). -/
structure WorkSpaceProofRec where
  spaceID : SpaceID
  proof : Option Nat
  publicKey : Nat
  ordinal : Nat
  error : Option Nat
deriving DecidableEq, Repr

/-- Modelled from the spec: `ws.Info()` (engine.WorkSpaceInfo, outside src/)
reports the identity and current state of a WorkSpace. -/
structure WorkSpaceInfo where
  sid : SpaceID
  state : WSState
  usingFlag : Bool
deriving DecidableEq, Repr

/-! ## List helpers (association lists keyed by SpaceID) -/

/-- Lookup in the object store / `allState` index. -/
def alookup (sid : SpaceID) : List (SpaceID × WSData) → Option WSData
  | [] => none
  | (s, d) :: rest => if s = sid then some d else alookup sid rest

/-- `ws.using = b` through a shared pointer: update every store entry with
this key. -/
def setUsing (sid : SpaceID) (b : Bool) (h : List (SpaceID × WSData)) : List (SpaceID × WSData) :=
  h.map fun e => if e.1 = sid then (e.1, { e.2 with usingFlag := b }) else e

/-- `ws.state = st` through a shared pointer. -/
def setState (sid : SpaceID) (st : WSState) (h : List (SpaceID × WSData)) : List (SpaceID × WSData) :=
  h.map fun e => if e.1 = sid then (e.1, { e.2 with state := st }) else e

/-- Map deletion (`workSpaceIndex[...].Delete(sid)`) on the object store. -/
def aerase (sid : SpaceID) : List (SpaceID × WSData) → List (SpaceID × WSData)
  | [] => []
  | (s, d) :: rest => if s = sid then aerase sid rest else (s, d) :: aerase sid rest

/-- Keys of the object store. -/
def heapKeys (h : List (SpaceID × WSData)) : List SpaceID := h.map (·.1)

/-- Map `Set` on a key set: insert if absent. -/
def insertSid (sid : SpaceID) (l : List SpaceID) : List SpaceID :=
  if sid ∈ l then l else l ++ [sid]

/-- Map `Delete` on a key set. -/
def removeSid (sid : SpaceID) : List SpaceID → List SpaceID
  | [] => []
  | s :: rest => if s = sid then removeSid sid rest else s :: removeSid sid rest

/-- `deleteFromSlice` (capacity.go): remove the first entry of
`workSpaceList` with the given id. -/
def deleteFromSlice : List SpaceID → SpaceID → List SpaceID
  | [], _ => []
  | s :: rest, sid => if s = sid then rest else s :: deleteFromSlice rest sid

/-- `plotterQueue.Delete(sid)`: drop every pending job for this id
(the queue struct lives outside src/, its deletion-by-sid contract is spec §9). -/
def queueDelete (sid : SpaceID) : List QueuedWorkSpace → List QueuedWorkSpace
  | [] => []
  | q :: rest => if q.sid = sid then queueDelete sid rest else q :: queueDelete sid rest

/-! ## The SpaceKeeper state -/

/-- The SpaceKeeper.  `heap` is `workSpaceIndex[allState]` and doubles as the
object store; `regIdx`..`mineIdx` are the per-state indexes as key sets;
`wsList` is `workSpaceList` as keys; `queue` is the pending part of the
plotterQueue, `popped` the in-flight "popped item"; `pendingCh` the
`newQueuedWorkSpaceCh` handoff channel contents. -/
structure SpaceKeeper where
  started : Bool
  configuring : Bool
  configured : Bool
  allowGenerateNewSpace : Bool
  dbDirs : List String
  heap : List (SpaceID × WSData)
  regIdx : List SpaceID
  plotIdx : List SpaceID
  readyIdx : List SpaceID
  mineIdx : List SpaceID
  wsList : List SpaceID
  queue : List QueuedWorkSpace
  popped : Option QueuedWorkSpace
  pendingCh : List QueuedWorkSpace
  proofCache : List ((SpaceID × Nat) × WorkSpaceProofRec)
deriving DecidableEq, Repr

/-- `newQueuedWorkSpace(ws, wouldMining)`: snapshot the priority from the
current fields of the WorkSpace. -/
def newQueuedWorkSpace (sk : SpaceKeeper) (sid : SpaceID) (wouldMining : Bool) : QueuedWorkSpace :=
  ⟨sid, wouldMining, prioKey sid ((alookup sid sk.heap).getD ⟨.registered, false⟩)⟩

/-- The per-state index of a given state. -/
def idxOf (sk : SpaceKeeper) : WSState → List SpaceID
  | .registered => sk.regIdx
  | .plotting => sk.plotIdx
  | .ready => sk.readyIdx
  | .mining => sk.mineIdx

/-- Delete a key from the index of a given state. -/
def idxDelete (st : WSState) (sid : SpaceID) (sk : SpaceKeeper) : SpaceKeeper :=
  match st with
  | .registered => { sk with regIdx := removeSid sid sk.regIdx }
  | .plotting => { sk with plotIdx := removeSid sid sk.plotIdx }
  | .ready => { sk with readyIdx := removeSid sid sk.readyIdx }
  | .mining => { sk with mineIdx := removeSid sid sk.mineIdx }

/-- Insert a key into the index of a given state. -/
def idxInsert (st : WSState) (sid : SpaceID) (sk : SpaceKeeper) : SpaceKeeper :=
  match st with
  | .registered => { sk with regIdx := insertSid sid sk.regIdx }
  | .plotting => { sk with plotIdx := insertSid sid sk.plotIdx }
  | .ready => { sk with readyIdx := insertSid sid sk.readyIdx }
  | .mining => { sk with mineIdx := insertSid sid sk.mineIdx }

/-! ## Action verbs (capacity.go lines 251-422) -/

/-- `PlotWS(sid)`.  The channel send on the Registered branch is modelled as
appending to `pendingCh`.  A `nil` popped item while the Plotting index is
non-empty cannot occur (at-most-one-plotting invariant, the Go code would
dereference nil); it is mapped to `WorkSpaceIsNotPlotting`. -/
def PlotWS (sk : SpaceKeeper) (sid : SpaceID) : SpaceKeeper × Option Err :=
  match alookup sid sk.heap with
  | none => (sk, some .workSpaceDoesNotExist)
  | some d =>
    if d.usingFlag = false then (sk, some .workSpaceDoesNotExist)
    else if sid ∈ sk.regIdx then
      ({ sk with pendingCh := sk.pendingCh ++ [newQueuedWorkSpace sk sid false] }, none)
    else if sid ∈ sk.plotIdx then
      match sk.popped with
      | some q =>
        if q.sid ≠ sid then (sk, some .workSpaceIsNotPlotting)
        else ({ sk with popped := some { q with wouldMining := false } }, none)
      | none => (sk, some .workSpaceIsNotPlotting)
    else (sk, none)

/-- `MineWS(sid)`. -/
def MineWS (sk : SpaceKeeper) (sid : SpaceID) : SpaceKeeper × Option Err :=
  match alookup sid sk.heap with
  | none => (sk, some .workSpaceDoesNotExist)
  | some d =>
    if d.usingFlag = false then (sk, some .workSpaceDoesNotExist)
    else if sid ∈ sk.regIdx then
      ({ sk with pendingCh := sk.pendingCh ++ [newQueuedWorkSpace sk sid true] }, none)
    else if sid ∈ sk.plotIdx then
      match sk.popped with
      | some q =>
        if q.sid ≠ sid then (sk, some .workSpaceIsNotPlotting)
        else ({ sk with popped := some { q with wouldMining := true } }, none)
      | none => (sk, some .workSpaceIsNotPlotting)
    else if sid ∈ sk.readyIdx then
      ({ sk with readyIdx := removeSid sid sk.readyIdx,
                 mineIdx := insertSid sid sk.mineIdx,
                 heap := setState sid .mining sk.heap }, none)
    else (sk, none)

/-- `StopWS(sid)`.  `ws.StopPlot()` is an external backend call whose result
is supplied by the `stopPlotErr` oracle. -/
def StopWS (stopPlotErr : SpaceID → Option Err) (sk : SpaceKeeper) (sid : SpaceID) :
    SpaceKeeper × Option Err :=
  match alookup sid sk.heap with
  | none => (sk, some .workSpaceDoesNotExist)
  | some d =>
    if d.usingFlag = false then (sk, some .workSpaceDoesNotExist)
    else
      let sk1 := { sk with queue := queueDelete sid sk.queue }
      if sid ∈ sk1.plotIdx then
        match sk1.popped with
        | some q =>
          if q.sid ≠ sid then (sk1, some .workSpaceIsNotPlotting)
          else ({ sk1 with popped := some { q with wouldMining := false } }, stopPlotErr sid)
        | none => (sk1, some .workSpaceIsNotPlotting)
      else if sid ∈ sk1.mineIdx then
        ({ sk1 with mineIdx := removeSid sid sk1.mineIdx,
                    readyIdx := insertSid sid sk1.readyIdx,
                    heap := setState sid .ready sk1.heap }, none)
      else (sk1, none)

/-- `disuseWorkSpace(ws)`: clear the flag, remove from `workSpaceList`. -/
def disuseWorkSpace (sk : SpaceKeeper) (sid : SpaceID) : SpaceKeeper :=
  { sk with heap := setUsing sid false sk.heap,
            wsList := deleteFromSlice sk.wsList sid }

/-- `useWorkSpace(ws)`: append to `workSpaceList` if not yet a member and
set the flag. -/
def useWorkSpace (sk : SpaceKeeper) (sid : SpaceID) : SpaceKeeper :=
  if sid ∈ sk.wsList then sk
  else { sk with wsList := sk.wsList ++ [sid], heap := setUsing sid true sk.heap }

/-- `RemoveWS(sid)`. -/
def RemoveWS (sk : SpaceKeeper) (sid : SpaceID) : SpaceKeeper × Option Err :=
  match alookup sid sk.heap with
  | none => (sk, some .workSpaceDoesNotExist)
  | some d =>
    if d.usingFlag = false then (sk, some .workSpaceDoesNotExist)
    else
      let sk1 := { sk with queue := queueDelete sid sk.queue }
      if sid ∈ sk1.regIdx ∨ sid ∈ sk1.readyIdx then (disuseWorkSpace sk1 sid, none)
      else (sk1, some .workSpaceIsNotStill)

/-- `DeleteWS(sid)`.  `ws.Delete()` (erasing the on-disk data) is external;
its result is supplied by the `deleteErr` oracle.  The `ws.using = false`
write performed by `disuseWorkSpace` lands on the object just erased from
the store and is therefore not observable. -/
def DeleteWS (deleteErr : SpaceID → Option Err) (sk : SpaceKeeper) (sid : SpaceID) :
    SpaceKeeper × Option Err :=
  match alookup sid sk.heap with
  | none => (sk, some .workSpaceDoesNotExist)
  | some d =>
    if d.usingFlag = false then (sk, some .workSpaceDoesNotExist)
    else
      let sk1 := { sk with queue := queueDelete sid sk.queue }
      if sid ∈ sk1.regIdx ∨ sid ∈ sk1.readyIdx then
        let st := ((alookup sid sk1.heap).getD ⟨.registered, false⟩).state
        let sk2 := idxDelete st sid sk1
        let sk3 := { sk2 with heap := aerase sid sk2.heap,
                              wsList := deleteFromSlice sk2.wsList sid }
        (sk3, deleteErr sid)
      else (sk1, some .workSpaceIsNotStill)

/-- `SignHash(sid, hash)` (capacity.go lines 244-249): only a lookup in the
`allState` index, then `wallet.SignMessage(ws.id.PubKey(), hash)`.  The
wallet is the `signMessage` oracle; signatures and hashes are abstracted
to `Nat`.  Note the function reads neither `sk.started` nor the `using`
flag nor the wallet lock state. -/
def SignHash (signMessage : Nat → Nat → Except Err Nat) (sk : SpaceKeeper)
    (sid : SpaceID) (hash : Nat) : Except Err Nat :=
  match alookup sid sk.heap with
  | some _ => signMessage sid.pubKey hash
  | none => .error .workSpaceDoesNotExist

/-! ## Proof lookup (capacity.go lines 121-148, 554-603) -/

/-- `proofCacheSize = 3000`. -/
def proofCacheSize : Nat := 3000

/-- Cache key `sid ∥ challenge` (the Go key is the concatenation of the two
strings; both string forms are injective, so the pair is equivalent). -/
def cacheKey (sid : SpaceID) (challenge : Nat) : SpaceID × Nat := (sid, challenge)

/-- `proofCache.Get`. -/
def cacheGet (k : SpaceID × Nat) :
    List ((SpaceID × Nat) × WorkSpaceProofRec) → Option WorkSpaceProofRec
  | [] => none
  | (k', v) :: rest => if k' = k then some v else cacheGet k rest

/-- Drop existing entries for a key. -/
def cacheEraseKey (k : SpaceID × Nat) :
    List ((SpaceID × Nat) × WorkSpaceProofRec) → List ((SpaceID × Nat) × WorkSpaceProofRec)
  | [] => []
  | (k', v) :: rest => if k' = k then cacheEraseKey k rest else (k', v) :: cacheEraseKey k rest

/-- Modelled from the spec: `ccache.Add` (massutil/ccache is outside src/) is a
bounded insert with LRU eviction at `proofCacheSize` entries (spec §3);
recency promotion on `Get` is not needed by any claim and is omitted. -/
def cacheAdd (k : SpaceID × Nat) (v : WorkSpaceProofRec)
    (c : List ((SpaceID × Nat) × WorkSpaceProofRec)) :
    List ((SpaceID × Nat) × WorkSpaceProofRec) :=
  ((k, v) :: cacheEraseKey k c).take proofCacheSize

/-- Build the proof record from a backend answer.  On a backend error the
error value is embedded in the record (capacity.go lines 561-568); the
backend (`ws.db.GetProof`) is an oracle, proofs and error codes are `Nat`. -/
def mkProofRec (sid : SpaceID) (r : Except Nat Nat) : WorkSpaceProofRec :=
  match r with
  | .ok p => ⟨sid, some p, sid.pubKey, sid.ordinal, none⟩
  | .error e => ⟨sid, none, sid.pubKey, sid.ordinal, some e⟩

/-- `getProof` (lines 554-572): consult the cache, on a miss call the backend
and insert the result (error or not). -/
def getProofInner (backend : SpaceID → Nat → Except Nat Nat) (sk : SpaceKeeper)
    (sid : SpaceID) (challenge : Nat) : WorkSpaceProofRec × SpaceKeeper :=
  match cacheGet (cacheKey sid challenge) sk.proofCache with
  | some v => (v, sk)
  | none =>
    let result := mkProofRec sid (backend sid challenge)
    (result, { sk with proofCache := cacheAdd (cacheKey sid challenge) result sk.proofCache })

/-- `GetProof` (lines 121-130). -/
def GetProof (backend : SpaceID → Nat → Except Nat Nat) (sk : SpaceKeeper)
    (sid : SpaceID) (challenge : Nat) : SpaceKeeper × Except Err WorkSpaceProofRec :=
  if sk.started = false then (sk, .error .spaceKeeperIsNotRunning)
  else
    match alookup sid sk.heap with
    | some d =>
      if d.usingFlag then
        let r := getProofInner backend sk sid challenge
        (r.2, .ok r.1)
      else (sk, .error .workSpaceDoesNotExist)
    | none => (sk, .error .workSpaceDoesNotExist)

/-- `getWsByFlags(sk.workSpaceList, flags)` (lines 1071-1083): filter the
list by state membership in the flag set (`flags.States()` is passed as the
list of states it denotes). -/
def getWsByFlags (sk : SpaceKeeper) (flags : List WSState) : List SpaceID :=
  sk.wsList.filter fun s =>
    match alookup s sk.heap with
    | some d => decide (d.state ∈ flags)
    | none => false

/-- `getProofs` (lines 574-603).  Phase 1 collects cached entries and submits
the misses to the worker pool; the pool (outside src/) is modelled from the
spec as executing the jobs in submission order, each computing the proof and
inserting it into the cache; phase 3 re-reads the cache for the submitted
jobs.  The `wg.Add(1); wg.Done(); wg.Wait()` of the Go code makes the wait
safe for an empty job list, which in this total model is the fact that the
function is defined at `items = []`. -/
def getProofsInner (backend : SpaceID → Nat → Except Nat Nat) (sk : SpaceKeeper)
    (items : List SpaceID) (challenge : Nat) :
    List (SpaceID × WorkSpaceProofRec) × SpaceKeeper :=
  let cached := items.filterMap fun s =>
    (cacheGet (cacheKey s challenge) sk.proofCache).map (fun v => (s, v))
  let jobs := items.filter fun s =>
    decide (cacheGet (cacheKey s challenge) sk.proofCache = none)
  let sk2 := jobs.foldl (fun acc s =>
    { acc with proofCache :=
        cacheAdd (cacheKey s challenge) (mkProofRec s (backend s challenge)) acc.proofCache }) sk
  let fromCache := jobs.filterMap fun s =>
    (cacheGet (cacheKey s challenge) sk2.proofCache).map (fun v => (s, v))
  (cached ++ fromCache, sk2)

/-- `GetProofs` (lines 132-148).  The Go code keys the matching WorkSpaces
into a map before fanning out; `workSpaceList` is duplicate-free in every
reachable state, so the filtered list is used directly. -/
def GetProofs (backend : SpaceID → Nat → Except Nat Nat) (sk : SpaceKeeper)
    (flags : List WSState) (challenge : Nat) :
    SpaceKeeper × Except Err (List (SpaceID × WorkSpaceProofRec)) :=
  if sk.started = false then (sk, .error .spaceKeeperIsNotRunning)
  else
    let items := getWsByFlags sk flags
    let r := getProofsInner backend sk items challenge
    (r.2, .ok r.1)

/-! ## Directory reset and disk check (capacity.go lines 473-523) -/

/-- The `strSliceEqual` closure of `ResetDBDirs`: equal lengths and every new
directory occurs in the set built from the old directories. -/
def strSliceEqual (newDirs oldDirs : List String) : Bool :=
  newDirs.length == oldDirs.length && newDirs.all fun d => decide (d ∈ oldDirs)

/-- `ResetDBDirs(dbDirs)`.  `generateInitialIndex` is an external hook
(the filesystem scanner, spec §4.5); only its error result is modelled, as
`genInitErr` (the index entries it would register are outside this file's
claims, which all start from a seeded state). -/
def ResetDBDirs (genInitErr : Option Err) (sk : SpaceKeeper) (dbDirs : List String) :
    SpaceKeeper × Option Err :=
  if sk.started then (sk, some .spaceKeeperIsRunning)
  else if sk.dbDirs.length = 0 then
    ({ sk with dbDirs := dbDirs }, genInitErr)
  else if strSliceEqual dbDirs sk.dbDirs = false then (sk, some .spaceKeeperChangeDBDirs)
  else (sk, none)

/-- `checkOSDiskSize(requiredBytes)` (lines 511-523): the free-byte count of
the primary directory is the `diskFree` oracle (`disk.Usage` may itself
fail). -/
def checkOSDiskSize (diskFree : Except Err Int) (requiredBytes : Int) : Option Err :=
  if requiredBytes < 0 then some .invalidRequiredBytes
  else
    match diskFree with
    | .error e => some e
    | .ok free => if requiredBytes ≥ free then some .osDiskSizeNotEnough else none

/-! ## Indexed buckets and the priority sort (capacity.go lines 525-552) -/

/-- `usableBitLength()`. -/
def usableBitLength : List Nat := [24, 26, 28]

/-- Priority comparison on the lexicographic key. -/
def prioLE (a b : Int × Int × Int) : Bool :=
  decide (a.1 < b.1) ||
    (decide (a.1 = b.1) &&
      (decide (a.2.1 < b.2.1) || (decide (a.2.1 = b.2.1) && decide (a.2.2 ≤ b.2.2))))

/-- Insert into a priority-ordered list (the plotterQueue is a heap ordered
by the key of spec §3; a sorted list realizes the same pop order). -/
def insertByPrio (q : QueuedWorkSpace) : List QueuedWorkSpace → List QueuedWorkSpace
  | [] => [q]
  | x :: xs => if prioLE q.prio x.prio then q :: x :: xs else x :: insertByPrio q xs

/-- Sort by priority; popping the head of the result is popping the
highest-priority item. -/
def sortByPrio (l : List QueuedWorkSpace) : List QueuedWorkSpace := l.foldr insertByPrio []

/-- The bucket of indexed WorkSpaces of one bit length, in priority order
(`getIndexedWorkSpaces`, lines 531-552). -/
def bucketFor (sk : SpaceKeeper) (bl : Nat) : List SpaceID :=
  (sortByPrio ((sk.heap.filter fun e => decide (e.1.bitLength = bl)).map
    fun e => ⟨e.1, false, prioKey e.1 e.2⟩)).map (·.sid)

/-- `getIndexedWorkSpaces()`: all indexed WorkSpaces grouped by bit length
(Go map iteration order is determinized to first-occurrence order of the
bit lengths in the store). -/
def getIndexedWorkSpaces (sk : SpaceKeeper) : List (Nat × List SpaceID) :=
  ((sk.heap.map fun e => e.1.bitLength).dedup).map fun bl => (bl, bucketFor sk bl)

/-- Lookup in a `bit length → bucket` map. -/
def mlookup (m : List (Nat × List SpaceID)) (k : Nat) : Option (List SpaceID) :=
  match m with
  | [] => none
  | (k', v) :: rest => if k' = k then some v else mlookup rest k

/-! ## Planner: fill by bit length (capacity.go lines 642-768) -/

/-- Lookup in a `bit length → count` map (Go map read defaults to 0). -/
def getCnt (m : List (Nat × Int)) (k : Nat) : Int :=
  match m with
  | [] => 0
  | (k', v) :: rest => if k' = k then v else getCnt rest k

/-- Write to a `bit length → count` map. -/
def setCnt : List (Nat × Int) → Nat → Int → List (Nat × Int)
  | [], k, v => [(k, v)]
  | (k', v') :: rest, k, v => if k' = k then (k, v) :: rest else (k', v') :: setCnt rest k v

/-- The inner bucket loop of `fillSpaceListByBitLength`: draw from the bucket
until the per-bit-length count is reached. -/
def fillOneBL : List SpaceID → List SpaceID → Int → Int → List SpaceID × Int
  | dst, [], cur, _count => (dst, cur)
  | dst, s :: rest, cur, count =>
    if cur = count then (dst, cur) else fillOneBL (dst ++ [s]) rest (cur + 1) count

/-- `fillSpaceListByBitLength` (lines 709-735).  For each target entry:
a missing bucket forces `finished = false`; otherwise the bucket is drawn
from and the entry is finished iff its count was reached. -/
def fillSpaceListByBitLength :
    List SpaceID → List (Nat × List SpaceID) → List (Nat × Int) → List (Nat × Int) →
    List SpaceID × List (Nat × Int) × Bool
  | dst, _srcMap, cur, [] => (dst, cur, true)
  | dst, srcMap, cur, (bl, count) :: rest =>
    match mlookup srcMap bl with
    | none =>
      let r := fillSpaceListByBitLength dst srcMap cur rest
      (r.1, r.2.1, false)
    | some spaces =>
      let p := fillOneBL dst spaces (getCnt cur bl) count
      let r := fillSpaceListByBitLength p.1 srcMap (setCnt cur bl p.2) rest
      (r.1, r.2.1, (p.2 == count) && r.2.2)

/-- `addWorkSpaceToIndex(ws)` (lines 621-630): no-op when the id is already
indexed, otherwise add to `allState` (the store) and the state's index. -/
def addWorkSpaceToIndex (sk : SpaceKeeper) (sid : SpaceID) (d : WSData) : SpaceKeeper :=
  if sid ∈ heapKeys sk.heap then sk
  else idxInsert d.state sid { sk with heap := sk.heap ++ [(sid, d)] }

/-- The per-bit-length generation loop of `generateFillSpaceListByBitLength`
(lines 751-765): generate until the count is reached; a newly generated
WorkSpace is Registered and not in use (spec §3/§4.5).  The stream lists
the successive `(pubkey, ordinal)` answers of the wallet, a `.error` entry
a failing `GenerateNewPublicKey`/`NewWorkSpace` call, and an exhausted
stream is reported as a backend error.  On a generation error the
WorkSpaces added so far stay indexed, as in the Go code. -/
def genLoopBL :
    List (Except Err (Nat × Nat)) → SpaceKeeper → List SpaceID → Nat → Int → Int →
    SpaceKeeper × List SpaceID × List (Except Err (Nat × Nat)) × Option Err
  | stream, sk, dst, bl, cur, count =>
    if cur = count then (sk, dst, stream, none)
    else
      match stream with
      | [] => (sk, dst, [], some (.backendErr 0))
      | .error e :: rest => (sk, dst, rest, some e)
      | .ok (pk, ord) :: rest =>
        let sid : SpaceID := ⟨ord, pk, bl⟩
        genLoopBL rest (addWorkSpaceToIndex sk sid ⟨.registered, false⟩) (dst ++ [sid])
          bl (cur + 1) count

/-- The outer loop of `generateFillSpaceListByBitLength` over the target map. -/
def genAllBL :
    List (Nat × Int) → List (Except Err (Nat × Nat)) → SpaceKeeper → List SpaceID →
    List (Nat × Int) → SpaceKeeper × List SpaceID × Option Err
  | [], _stream, sk, dst, _cur => (sk, dst, none)
  | (bl, count) :: rest, stream, sk, dst, cur =>
    let r := genLoopBL stream sk dst bl (getCnt cur bl) count
    match r.2.2.2 with
    | some e => (r.1, r.2.1, some e)
    | none => genAllBL rest r.2.2.1 r.1 r.2.1 (setCnt cur bl count)

/-- `generateFillSpaceListByBitLength` (lines 737-768): refuse when
generation is disabled, check the disk for the whole deficit, then
generate per target entry. -/
def generateFillSpaceListByBitLength (diskFree : Except Err Int)
    (genStream : List (Except Err (Nat × Nat))) (blds : Nat → Int) (sk : SpaceKeeper)
    (dst : List SpaceID) (cur target : List (Nat × Int)) :
    SpaceKeeper × List SpaceID × Option Err :=
  if sk.allowGenerateNewSpace = false then (sk, dst, some .workSpaceCannotGenerate)
  else
    let required := target.foldl (fun acc e => acc + (e.2 - getCnt cur e.1) * blds e.1) 0
    match checkOSDiskSize diskFree required with
    | some e => (sk, dst, some e)
    | none => genAllBL target genStream sk dst cur

/-! ## Planner: rebuilding `workSpaceList` and the queue -/

/-- `ws.Info()` read from the store (missing id: a dead object, defaulted;
unreachable for the ids the planners report). -/
def wsInfo (sk : SpaceKeeper) (sid : SpaceID) : WorkSpaceInfo :=
  let d := (alookup sid sk.heap).getD ⟨.registered, false⟩
  ⟨sid, d.state, d.usingFlag⟩

/-- The `for ws in workSpaceList: ws.using = false` pass of
`ConfigureByBitLength`/`ConfigureBySize`. -/
def markUnusing (sk : SpaceKeeper) : SpaceKeeper :=
  { sk with heap := sk.wsList.foldl (fun h s => setUsing s false h) sk.heap }

/-- The pop-push loop shared by all planners: drain the temporary priority
queue, pushing each item onto `sk.queue` and calling `useWorkSpace` on it
(`for !tmpQueuedList.Empty() { ... }`). -/
def pushAndUse (sk : SpaceKeeper) (l : List QueuedWorkSpace) : SpaceKeeper :=
  l.foldl (fun acc q => useWorkSpace { acc with queue := acc.queue ++ [q] } q.sid) sk

/-- The `successfullyReturn` closure of `ConfigureByBitLength` (lines
660-690): an empty result is `SpaceKeeperConfiguredNothing`; otherwise the
old list is un-used and cleared, the result is pushed in priority order and
re-used, the queue is reset when neither exec flag is set, and
`configured` is raised. -/
def successReturnBL (sk : SpaceKeeper) (resultList : List SpaceID) (execPlot execMine : Bool) :
    SpaceKeeper × Except Err (List WorkSpaceInfo) :=
  if resultList.length = 0 then (sk, .error .spaceKeeperConfiguredNothing)
  else
    let sk1 := { markUnusing sk with wsList := [] }
    let qwsList := sortByPrio (resultList.map fun s => newQueuedWorkSpace sk1 s execMine)
    let sk2 := pushAndUse sk1 qwsList
    let sk3 := if (execMine || execPlot) = false then { sk2 with queue := [] } else sk2
    let sk4 := { sk3 with configured := true }
    (sk4, .ok (resultList.map fun s => wsInfo sk4 s))

/-- `ConfigureByBitLength(BlCount, execPlot, execMine)` (lines 642-707).
The `configuring` slot is taken and released around the body, so it is
unchanged in the result; `configured` is dropped on entry and raised only by
a successful return.  The target map is passed as an association list in
iteration order (Go map order is arbitrary; spec §9 notes the
order-dependence). -/
def ConfigureByBitLength (diskFree : Except Err Int)
    (genStream : List (Except Err (Nat × Nat))) (blds : Nat → Int) (sk : SpaceKeeper)
    (blCount : List (Nat × Int)) (execPlot execMine : Bool) :
    SpaceKeeper × Except Err (List WorkSpaceInfo) :=
  if sk.started then (sk, .error .spaceKeeperIsRunning)
  else if sk.configuring then (sk, .error .spaceKeeperIsConfiguring)
  else
    let sk0 := { sk with configured := false }
    let f := fillSpaceListByBitLength [] (getIndexedWorkSpaces sk0) [] blCount
    if f.2.2 then successReturnBL sk0 f.1 execPlot execMine
    else
      let g := generateFillSpaceListByBitLength diskFree genStream blds sk0 f.1 f.2.1 blCount
      match g.2.2 with
      | some e => (g.1, .error e)
      | none => successReturnBL g.1 g.2.1 execPlot execMine

/-! ## Planner: fill by aggregate size (capacity.go lines 770-908) -/

/-- The inner bucket loop of `fillSpaceListBySize` (lines 856-864): a
candidate whose size would push the accumulated size past the target is
skipped whole. -/
def fillBucket (sz : Int) (target : Int) : List SpaceID → List SpaceID → Int → List SpaceID × Int
  | [], dst, cur => (dst, cur)
  | s :: rest, dst, cur =>
    if cur + sz > target then fillBucket sz target rest dst cur
    else fillBucket sz target rest (dst ++ [s]) (cur + sz)

/-- `fillSpaceListBySize` (lines 844-873): walk the buckets in decreasing
bit-length order, then report completion iff the target was hit exactly or
the deficit is below `MinDiskSize`.  `blds` is `poc.BitLengthDiskSize` and
`minDiskSize` is `poc.MinDiskSize` (both provided by the external poc
package). -/
def fillSpaceListBySize (blds : Nat → Int) (minDiskSize : Int) (dst : List SpaceID)
    (srcMap : List (Nat × List SpaceID)) (currentSize targetSize : Int) :
    List SpaceID × Int × Bool :=
  let step := fun (acc : List SpaceID × Int) (bl : Nat) =>
    match mlookup srcMap bl with
    | none => acc
    | some spaces => fillBucket (blds bl) targetSize spaces acc.1 acc.2
  let p := (usableBitLength.reverse).foldl step (dst, currentSize)
  if p.2 = targetSize ∨ targetSize - p.2 < minDiskSize then (p.1, p.2, true)
  else (p.1, p.2, false)

/-- The per-bit-length generation loop of `generateFillSpaceListBySize`
(lines 890-905): generate while a plot of this bit length still fits into
the deficit. -/
def genLoopSize (blds : Nat → Int) (target : Int) (bl : Nat) :
    List (Except Err (Nat × Nat)) → SpaceKeeper → List SpaceID → Int →
    SpaceKeeper × List SpaceID × Int × List (Except Err (Nat × Nat)) × Option Err
  | stream, sk, dst, cur =>
    if target - cur < blds bl then (sk, dst, cur, stream, none)
    else
      match stream with
      | [] => (sk, dst, cur + blds bl, [], some (.backendErr 0))
      | .error e :: rest => (sk, dst, cur + blds bl, rest, some e)
      | .ok (pk, ord) :: rest =>
        let sid : SpaceID := ⟨ord, pk, bl⟩
        genLoopSize blds target bl rest (addWorkSpaceToIndex sk sid ⟨.registered, false⟩)
          (dst ++ [sid]) (cur + blds bl)

/-- The outer loop of `generateFillSpaceListBySize` over the decreasing
bit lengths. -/
def genAllSize (blds : Nat → Int) (target : Int) :
    List Nat → List (Except Err (Nat × Nat)) → SpaceKeeper → List SpaceID → Int →
    SpaceKeeper × List SpaceID × Option Err
  | [], _stream, sk, dst, _cur => (sk, dst, none)
  | bl :: rest, stream, sk, dst, cur =>
    let r := genLoopSize blds target bl stream sk dst cur
    match r.2.2.2.2 with
    | some e => (r.1, r.2.1, some e)
    | none => genAllSize blds target rest r.2.2.2.1 r.1 r.2.1 r.2.2.1

/-- `generateFillSpaceListBySize` (lines 875-908). -/
def generateFillSpaceListBySize (diskFree : Except Err Int)
    (genStream : List (Except Err (Nat × Nat))) (blds : Nat → Int) (sk : SpaceKeeper)
    (dst : List SpaceID) (cur target : Int) : SpaceKeeper × List SpaceID × Option Err :=
  if sk.allowGenerateNewSpace = false then (sk, dst, some .workSpaceCannotGenerate)
  else
    match checkOSDiskSize diskFree (target - cur) with
    | some e => (sk, dst, some e)
    | none => genAllSize blds target usableBitLength.reverse genStream sk dst cur

/-- The `successfullyReturn` closure of `ConfigureBySize` (lines 796-826):
like the bit-length one, but the queue is reset before the rebuild and
again unconditionally at the end (this planner provisions only), and jobs
are pushed with `wouldMining = false`. -/
def successReturnSize (sk : SpaceKeeper) (resultList : List SpaceID) :
    SpaceKeeper × Except Err (List WorkSpaceInfo) :=
  if resultList.length = 0 then (sk, .error .spaceKeeperConfiguredNothing)
  else
    let sk0 := { sk with queue := [] }
    let sk1 := { markUnusing sk0 with wsList := [] }
    let qwsList := sortByPrio (resultList.map fun s => newQueuedWorkSpace sk1 s false)
    let sk2 := pushAndUse sk1 qwsList
    let sk3 := { sk2 with queue := [] }
    let sk4 := { sk3 with configured := true }
    (sk4, .ok (resultList.map fun s => wsInfo sk4 s))

/-- `ConfigureBySize(targetSize, password)` (lines 770-842).  The wallet
unlock result is the `unlockErr` oracle.  The under-size guard compares
against `poc.BitLengthDiskSize[usableBitLength()[0]]`. -/
def ConfigureBySize (diskFree : Except Err Int)
    (genStream : List (Except Err (Nat × Nat))) (unlockErr : Option Err)
    (blds : Nat → Int) (minDiskSize : Int) (sk : SpaceKeeper) (targetSize : Int) :
    SpaceKeeper × Except Err (List WorkSpaceInfo) :=
  if sk.started then (sk, .error .spaceKeeperIsRunning)
  else if sk.configuring then (sk, .error .spaceKeeperIsConfiguring)
  else
    let sk0 := { sk with configured := false }
    if targetSize < blds (usableBitLength.headD 0) then (sk0, .error .configUnderSizeTarget)
    else
      match unlockErr with
      | some e => (sk0, .error e)
      | none =>
        let f := fillSpaceListBySize blds minDiskSize [] (getIndexedWorkSpaces sk0) 0 targetSize
        if f.2.2 then successReturnSize sk0 f.1
        else
          let g := generateFillSpaceListBySize diskFree genStream blds sk0 f.1 f.2.1 targetSize
          match g.2.2 with
          | some e => (g.1, .error e)
          | none => successReturnSize g.1 g.2.1

/-! ## Planner: by public key (capacity.go lines 910-992) -/

/-- The generation loop of `generateFillSpaceListByPubKey` (lines 973-984):
reuse an indexed WorkSpace with the exact SpaceID, otherwise create one with
the supplied identity (`NewWorkSpace` may fail, oracle `nwsErr`). -/
def genPKLoop (nwsErr : SpaceID → Option Err) (pko : Nat → Nat) :
    List (Nat × Nat) → SpaceKeeper → List SpaceID → SpaceKeeper × List SpaceID × Option Err
  | [], sk, dst => (sk, dst, none)
  | (pk, bl) :: rest, sk, dst =>
    let sid : SpaceID := ⟨pko pk, pk, bl⟩
    if sid ∈ heapKeys sk.heap then genPKLoop nwsErr pko rest sk (dst ++ [sid])
    else
      match nwsErr sid with
      | some e => (sk, dst, some e)
      | none => genPKLoop nwsErr pko rest (addWorkSpaceToIndex sk sid ⟨.registered, false⟩)
          (dst ++ [sid])

/-- `generateFillSpaceListByPubKey` (lines 961-987): the disk check covers
only the ids not yet indexed. -/
def generateFillSpaceListByPubKey (diskFree : Except Err Int) (nwsErr : SpaceID → Option Err)
    (blds : Nat → Int) (sk : SpaceKeeper) (dst : List SpaceID)
    (pubKeyBL : List (Nat × Nat)) (pko : Nat → Nat) : SpaceKeeper × List SpaceID × Option Err :=
  let required := pubKeyBL.foldl
    (fun acc e =>
      if (⟨pko e.1, e.1, e.2⟩ : SpaceID) ∈ heapKeys sk.heap then acc else acc + blds e.2) 0
  match checkOSDiskSize diskFree required with
  | some e => (sk, dst, some e)
  | none => genPKLoop nwsErr pko pubKeyBL sk dst

/-- The `successfullyReturn` closure of `ConfigureByPubKey` (lines 924-951):
`SpaceKeeperConfiguredNothing` when the result does not cover the whole
target; otherwise `workSpaceList` is replaced — note: without the
`using = false` pass over the old list that the other planners perform. -/
def successReturnPK (sk : SpaceKeeper) (resultList : List SpaceID) (targetLen : Nat)
    (execPlot execMine : Bool) : SpaceKeeper × Except Err (List WorkSpaceInfo) :=
  if resultList.length ≠ targetLen then (sk, .error .spaceKeeperConfiguredNothing)
  else
    let sk1 := { sk with wsList := [] }
    let qwsList := sortByPrio (resultList.map fun s => newQueuedWorkSpace sk1 s execMine)
    let sk2 := pushAndUse sk1 qwsList
    let sk3 := if (execMine || execPlot) = false then { sk2 with queue := [] } else sk2
    let sk4 := { sk3 with configured := true }
    (sk4, .ok (resultList.map fun s => wsInfo sk4 s))

/-- `ConfigureByPubKey(PubKeyBL, PubKeyOrdinal, execPlot, execMine)` (lines
910-959).  The target map is an association list of `(pubkey, bit length)`;
`pko` is the `PubKeyOrdinal` map as a total function. -/
def ConfigureByPubKey (diskFree : Except Err Int) (nwsErr : SpaceID → Option Err)
    (blds : Nat → Int) (sk : SpaceKeeper) (pubKeyBL : List (Nat × Nat)) (pko : Nat → Nat)
    (execPlot execMine : Bool) : SpaceKeeper × Except Err (List WorkSpaceInfo) :=
  if sk.started then (sk, .error .spaceKeeperIsRunning)
  else if sk.configuring then (sk, .error .spaceKeeperIsConfiguring)
  else
    let sk0 := { sk with configured := false }
    let g := generateFillSpaceListByPubKey diskFree nwsErr blds sk0 [] pubKeyBL pko
    match g.2.2 with
    | some e => (g.1, .error e)
    | none => successReturnPK g.1 g.2.1 pubKeyBL.length execPlot execMine

/-! ## Planner: by flags (capacity.go lines 994-1036) -/

/-- `ConfigureByFlags(flags, execPlot, execMine)`: take exactly the indexed
WorkSpaces in the flag states (`flags.States()` passed as a state list),
replace `workSpaceList` (again without the `using = false` pass), push all
of them with `wouldMining = true`, and raise `configured` only when the
result is empty.  The call never fails past the two entry guards. -/
def ConfigureByFlags (sk : SpaceKeeper) (flags : List WSState) (execPlot execMine : Bool) :
    SpaceKeeper × Except Err (List WorkSpaceInfo) :=
  if sk.started then (sk, .error .spaceKeeperIsRunning)
  else if sk.configuring then (sk, .error .spaceKeeperIsConfiguring)
  else
    let sk0 := { sk with configured := false }
    let items := flags.foldl (fun acc st => acc ++ idxOf sk0 st) []
    let sk1 := { sk0 with wsList := [] }
    let qwsList := sortByPrio (items.map fun s => newQueuedWorkSpace sk1 s true)
    let sk2 := pushAndUse sk1 qwsList
    let sk3 := if (execMine || execPlot) = false then { sk2 with queue := [] } else sk2
    let wsiList := sk3.wsList.map fun s => wsInfo sk3 s
    let sk4 := if wsiList.length = 0 then { sk3 with configured := true } else sk3
    (sk4, .ok wsiList)

/-! ## Invariants (spec §8) -/

/-- Invariant 2 of spec §8 over the live WorkSpaces (the `allState` index):
the store keys are unique, `workSpaceList` has no duplicate ids, every
listed id is live, and a live WorkSpace is `using` iff it is listed. -/
def skInv (sk : SpaceKeeper) : Prop :=
  (heapKeys sk.heap).Nodup ∧ sk.wsList.Nodup ∧
  (∀ s ∈ sk.wsList, s ∈ heapKeys sk.heap) ∧
  (∀ e ∈ sk.heap, e.2.usingFlag = true ↔ e.1 ∈ sk.wsList)

/-- The one-directional variant: every listed WorkSpace is `using` (but a
WorkSpace dropped from the list may keep a stale `using = true`). -/
def skInvWeak (sk : SpaceKeeper) : Prop :=
  (heapKeys sk.heap).Nodup ∧ sk.wsList.Nodup ∧
  (∀ s ∈ sk.wsList, s ∈ heapKeys sk.heap) ∧
  (∀ e ∈ sk.heap, e.1 ∈ sk.wsList → e.2.usingFlag = true)

/-- Index coherence (spec §3 invariant 1, the part used here): every id in a
per-state index is live. -/
def idxSub (sk : SpaceKeeper) : Prop :=
  (∀ s ∈ sk.regIdx, s ∈ heapKeys sk.heap) ∧ (∀ s ∈ sk.plotIdx, s ∈ heapKeys sk.heap) ∧
  (∀ s ∈ sk.readyIdx, s ∈ heapKeys sk.heap) ∧ (∀ s ∈ sk.mineIdx, s ∈ heapKeys sk.heap)

instance (sk : SpaceKeeper) : Decidable (skInv sk) := by
  unfold skInv
  infer_instance

instance (sk : SpaceKeeper) : Decidable (skInvWeak sk) := by
  unfold skInvWeak
  infer_instance

instance (sk : SpaceKeeper) : Decidable (idxSub sk) := by
  unfold idxSub
  infer_instance

/-- What the success closures need about the generation loops: the invariant
is preserved, the produced list stays within the (grown) store, and existing
keys survive. -/
def genOk (sk sk2 : SpaceKeeper) (dst dst2 : List SpaceID) : Prop :=
  (skInv sk → skInv sk2) ∧ ((∀ s ∈ dst, s ∈ heapKeys sk.heap) → ∀ s ∈ dst2, s ∈ heapKeys sk2.heap) ∧
  (∀ s, s ∈ heapKeys sk.heap → s ∈ heapKeys sk2.heap)

/-- Modelled from the spec (§4.4, by aggregate size): a greedy fill of a
candidate list, each candidate paired with its disk size; a candidate is
taken iff adding its whole size keeps the accumulated size within the
target, otherwise it is skipped entirely. -/
def greedyFill (target : Int) : Int → List (SpaceID × Int) → List SpaceID × Int
  | cur, [] => ([], cur)
  | cur, (s, sz) :: rest =>
    if cur + sz ≤ target then
      (s :: (greedyFill target (cur + sz) rest).1, (greedyFill target (cur + sz) rest).2)
    else greedyFill target cur rest

/-- Modelled from the spec (§4.4): the indexed buckets flattened in strictly
descending bit-length order (28, 26, 24), candidates paired with the disk
size of their bit length. -/
def annotBuckets (blds : Nat → Int) (srcMap : List (Nat × List SpaceID)) :
    List (SpaceID × Int) :=
  ((usableBitLength.reverse).map
    (fun bl => ((mlookup srcMap bl).getD []).map (fun s => (s, blds bl)))).flatten

/-! ## Concrete states used by witnesses and counterexamples -/

/-- A sample SpaceID. -/
def sidA : SpaceID := ⟨1, 10, 24⟩

/-- A second sample SpaceID. -/
def sidB : SpaceID := ⟨2, 20, 26⟩

/-- A freshly constructed, stopped, unseeded SpaceKeeper. -/
def skEmpty : SpaceKeeper :=
  ⟨false, false, false, true, [], [], [], [], [], [], [], [], none, [], []⟩

/-- A stopped SpaceKeeper holding one Ready WorkSpace that is in use. -/
def skReadyUsing : SpaceKeeper :=
  { skEmpty with heap := [(sidA, ⟨.ready, true⟩)], readyIdx := [sidA], wsList := [sidA] }

/-- A stopped SpaceKeeper holding one Registered WorkSpace that is in use. -/
def skRegUsing : SpaceKeeper :=
  { skEmpty with heap := [(sidA, ⟨.registered, true⟩)], regIdx := [sidA], wsList := [sidA] }

/-- A SpaceKeeper holding one Mining WorkSpace in use, with a pending queue
entry for its sid. -/
def skMiningQueued : SpaceKeeper :=
  { skEmpty with heap := [(sidA, ⟨.mining, true⟩)], mineIdx := [sidA], wsList := [sidA],
                 queue := [⟨sidA, false, prioKey sidA ⟨.mining, true⟩⟩] }

theorem skInv_congr {sk sk2 : SpaceKeeper} (h1 : sk2.heap = sk.heap)
    (h2 : sk2.wsList = sk.wsList) (hinv : skInv sk) : skInv sk2 := by
  unfold skInv at *
  rw [h1, h2]
  exact hinv

theorem skInvWeak_congr {sk sk2 : SpaceKeeper} (h1 : sk2.heap = sk.heap)
    (h2 : sk2.wsList = sk.wsList) (hinv : skInvWeak sk) : skInvWeak sk2 := by
  unfold skInvWeak at *
  rw [h1, h2]
  exact hinv

theorem skInv_weaken {sk : SpaceKeeper} (hinv : skInv sk) : skInvWeak sk :=
  ⟨hinv.1, hinv.2.1, hinv.2.2.1, fun e he hm => ((hinv.2.2.2 e he).mpr hm)⟩

/-! ## Lemmas about the list helpers -/

theorem heapKeys_setUsing (sid : SpaceID) (b : Bool) (h : List (SpaceID × WSData)) :
    heapKeys (setUsing sid b h) = heapKeys h := by
  induction h with
  | nil => rfl
  | cons e rest ih =>
    by_cases hc : e.1 = sid <;> simp [setUsing, heapKeys, hc] at * <;> exact ih

theorem heapKeys_setState (sid : SpaceID) (st : WSState) (h : List (SpaceID × WSData)) :
    heapKeys (setState sid st h) = heapKeys h := by
  induction h with
  | nil => rfl
  | cons e rest ih =>
    by_cases hc : e.1 = sid <;> simp [setState, heapKeys, hc] at * <;> exact ih

theorem mem_setUsing {sid : SpaceID} {b : Bool} {h : List (SpaceID × WSData)} {e : SpaceID × WSData}
    (he : e ∈ setUsing sid b h) :
    ∃ e0 ∈ h, e.1 = e0.1 ∧
      e.2 = (if e0.1 = sid then { e0.2 with usingFlag := b } else e0.2) := by
  unfold setUsing at he
  obtain ⟨e0, he0, hfe⟩ := List.mem_map.mp he
  refine ⟨e0, he0, ?_, ?_⟩ <;> by_cases hc : e0.1 = sid <;> simp [hc] at hfe ⊢ <;>
    simp [← hfe]

theorem mem_setState {sid : SpaceID} {st : WSState} {h : List (SpaceID × WSData)}
    {e : SpaceID × WSData} (he : e ∈ setState sid st h) :
    ∃ e0 ∈ h, e.1 = e0.1 ∧ e.2.usingFlag = e0.2.usingFlag := by
  unfold setState at he
  obtain ⟨e0, he0, hfe⟩ := List.mem_map.mp he
  refine ⟨e0, he0, ?_, ?_⟩ <;> by_cases hc : e0.1 = sid <;> simp [hc] at hfe ⊢ <;>
    simp [← hfe]

theorem mem_aerase {sid : SpaceID} {h : List (SpaceID × WSData)} {e : SpaceID × WSData} :
    e ∈ aerase sid h ↔ e ∈ h ∧ e.1 ≠ sid := by
  induction h with
  | nil => simp [aerase]
  | cons e0 rest ih =>
    obtain ⟨s0, d0⟩ := e0
    simp only [aerase]
    by_cases hc : s0 = sid
    · rw [if_pos hc, ih]
      subst hc
      constructor
      · rintro ⟨hm, hne⟩
        exact ⟨List.mem_cons_of_mem _ hm, hne⟩
      · rintro ⟨hm, hne⟩
        rcases List.mem_cons.mp hm with rfl | hm2
        · exact absurd rfl hne
        · exact ⟨hm2, hne⟩
    · rw [if_neg hc, List.mem_cons, List.mem_cons, ih]
      constructor
      · rintro (rfl | ⟨hm, hne⟩)
        · exact ⟨Or.inl rfl, fun h => hc (by simpa using h)⟩
        · exact ⟨Or.inr hm, hne⟩
      · rintro ⟨rfl | hm, hne⟩
        · exact Or.inl rfl
        · exact Or.inr ⟨hm, hne⟩

theorem mem_removeSid {sid s : SpaceID} {l : List SpaceID} :
    s ∈ removeSid sid l ↔ s ∈ l ∧ s ≠ sid := by
  induction l with
  | nil => simp [removeSid]
  | cons s0 rest ih =>
    simp only [removeSid]
    by_cases hc : s0 = sid
    · rw [if_pos hc, ih]
      subst hc
      constructor
      · rintro ⟨hm, hne⟩
        exact ⟨List.mem_cons_of_mem _ hm, hne⟩
      · rintro ⟨hm, hne⟩
        rcases List.mem_cons.mp hm with rfl | hm2
        · exact absurd rfl hne
        · exact ⟨hm2, hne⟩
    · rw [if_neg hc, List.mem_cons, List.mem_cons, ih]
      constructor
      · rintro (rfl | ⟨hm, hne⟩)
        · exact ⟨Or.inl rfl, hc⟩
        · exact ⟨Or.inr hm, hne⟩
      · rintro ⟨rfl | hm, hne⟩
        · exact Or.inl rfl
        · exact Or.inr ⟨hm, hne⟩

theorem heapKeys_aerase (sid : SpaceID) (h : List (SpaceID × WSData)) :
    heapKeys (aerase sid h) = removeSid sid (heapKeys h) := by
  induction h with
  | nil => rfl
  | cons e rest ih =>
    by_cases hc : e.1 = sid <;> simp [aerase, removeSid, heapKeys, hc] at * <;> exact ih

theorem nodup_removeSid {sid : SpaceID} {l : List SpaceID} (hl : l.Nodup) :
    (removeSid sid l).Nodup := by
  induction l with
  | nil => exact hl
  | cons s0 rest ih =>
    obtain ⟨hn, hrest⟩ := List.nodup_cons.mp hl
    by_cases hc : s0 = sid
    · simpa [removeSid, hc] using ih hrest
    · simp only [removeSid, if_neg hc, List.nodup_cons]
      exact ⟨fun hm => hn (mem_removeSid.mp hm).1, ih hrest⟩

theorem mem_deleteFromSlice {l : List SpaceID} {sid s : SpaceID}
    (hs : s ∈ deleteFromSlice l sid) : s ∈ l := by
  induction l with
  | nil => exact absurd hs (by simp [deleteFromSlice])
  | cons s0 rest ih =>
    by_cases hc : s0 = sid
    · simp only [deleteFromSlice, if_pos hc] at hs
      exact List.mem_cons_of_mem _ hs
    · simp only [deleteFromSlice, if_neg hc, List.mem_cons] at hs
      rcases hs with rfl | hs
      · exact List.mem_cons_self _ _
      · exact List.mem_cons_of_mem _ (ih hs)

theorem mem_deleteFromSlice_of_ne {l : List SpaceID} {sid s : SpaceID} (hne : s ≠ sid) :
    s ∈ deleteFromSlice l sid ↔ s ∈ l := by
  induction l with
  | nil => simp [deleteFromSlice]
  | cons s0 rest ih =>
    by_cases hc : s0 = sid
    · subst hc
      simp only [deleteFromSlice, if_pos rfl, List.mem_cons]
      exact ⟨fun hm => Or.inr hm, fun hm => hm.resolve_left hne⟩
    · simp only [deleteFromSlice, if_neg hc, List.mem_cons, ih]

theorem nodup_deleteFromSlice {l : List SpaceID} {sid : SpaceID} (hl : l.Nodup) :
    (deleteFromSlice l sid).Nodup := by
  induction l with
  | nil => exact hl
  | cons s0 rest ih =>
    obtain ⟨hn, hrest⟩ := List.nodup_cons.mp hl
    by_cases hc : s0 = sid
    · simpa [deleteFromSlice, hc] using hrest
    · simp only [deleteFromSlice, if_neg hc, List.nodup_cons]
      exact ⟨fun hm => hn (mem_deleteFromSlice hm), ih hrest⟩

theorem not_mem_deleteFromSlice {l : List SpaceID} {sid : SpaceID} (hl : l.Nodup) :
    sid ∉ deleteFromSlice l sid := by
  induction l with
  | nil => simp [deleteFromSlice]
  | cons s0 rest ih =>
    obtain ⟨hn, hrest⟩ := List.nodup_cons.mp hl
    by_cases hc : s0 = sid
    · subst hc
      simpa [deleteFromSlice] using hn
    · simp only [deleteFromSlice, if_neg hc, List.mem_cons]
      rintro (rfl | hm)
      · exact hc rfl
      · exact ih hrest hm

/-! ## Preservation lemmas for the list/queue rebuild -/

theorem useWorkSpace_heap_keys (sk : SpaceKeeper) (sid : SpaceID) :
    heapKeys (useWorkSpace sk sid).heap = heapKeys sk.heap := by
  unfold useWorkSpace
  by_cases hm : sid ∈ sk.wsList
  · rw [if_pos hm]
  · rw [if_neg hm]
    exact heapKeys_setUsing sid true sk.heap

theorem skInv_useWorkSpace {sk : SpaceKeeper} {sid : SpaceID} (hinv : skInv sk)
    (hs : sid ∈ heapKeys sk.heap) : skInv (useWorkSpace sk sid) := by
  obtain ⟨hk, hw, hsub, hiff⟩ := hinv
  unfold useWorkSpace
  by_cases hm : sid ∈ sk.wsList
  · rw [if_pos hm]
    exact ⟨hk, hw, hsub, hiff⟩
  · rw [if_neg hm]
    refine ⟨?_, ?_, ?_, ?_⟩
    · simpa [heapKeys_setUsing] using hk
    · simpa [List.nodup_append] using ⟨hw, hm⟩
    · intro s hsm
      rw [heapKeys_setUsing]
      rcases List.mem_append.mp hsm with hsm | hsm
      · exact hsub s hsm
      · simp at hsm
        subst hsm
        exact hs
    · intro e he
      obtain ⟨e0, he0, h1, h2⟩ := mem_setUsing he
      by_cases hc : e0.1 = sid
      · rw [if_pos hc] at h2
        simp [h1, h2, hc]
      · rw [if_neg hc] at h2
        rw [h1, h2, List.mem_append]
        rw [hiff e0 he0]
        constructor
        · exact fun hmm => Or.inl hmm
        · rintro (hmm | hmm)
          · exact hmm
          · simp at hmm
            exact absurd hmm hc

theorem skInvWeak_useWorkSpace {sk : SpaceKeeper} {sid : SpaceID} (hinv : skInvWeak sk)
    (hs : sid ∈ heapKeys sk.heap) : skInvWeak (useWorkSpace sk sid) := by
  obtain ⟨hk, hw, hsub, himp⟩ := hinv
  unfold useWorkSpace
  by_cases hm : sid ∈ sk.wsList
  · rw [if_pos hm]
    exact ⟨hk, hw, hsub, himp⟩
  · rw [if_neg hm]
    refine ⟨?_, ?_, ?_, ?_⟩
    · simpa [heapKeys_setUsing] using hk
    · simpa [List.nodup_append] using ⟨hw, hm⟩
    · intro s hsm
      rw [heapKeys_setUsing]
      rcases List.mem_append.mp hsm with hsm | hsm
      · exact hsub s hsm
      · simp at hsm
        subst hsm
        exact hs
    · intro e he hme
      obtain ⟨e0, he0, h1, h2⟩ := mem_setUsing he
      by_cases hc : e0.1 = sid
      · rw [if_pos hc] at h2
        simp [h2]
      · rw [if_neg hc] at h2
        rw [h1, List.mem_append] at hme
        rcases hme with hme | hme
        · rw [h2]
          exact himp e0 he0 hme
        · simp at hme
          exact absurd hme hc

theorem pushAndUse_inv : ∀ (l : List QueuedWorkSpace) (sk : SpaceKeeper), skInv sk →
    (∀ q ∈ l, q.sid ∈ heapKeys sk.heap) → skInv (pushAndUse sk l) := by
  intro l
  induction l with
  | nil => exact fun sk hinv _ => hinv
  | cons q rest ih =>
    intro sk hinv hall
    have hstep : skInv (useWorkSpace { sk with queue := sk.queue ++ [q] } q.sid) := by
      refine skInv_useWorkSpace ?_ ?_
      · exact skInv_congr rfl rfl hinv
      · exact hall q (List.mem_cons_self _ _)
    have hkeys : heapKeys (useWorkSpace { sk with queue := sk.queue ++ [q] } q.sid).heap =
        heapKeys sk.heap := useWorkSpace_heap_keys _ _
    have := ih (useWorkSpace { sk with queue := sk.queue ++ [q] } q.sid) hstep
      (fun q2 hq2 => by rw [hkeys]; exact hall q2 (List.mem_cons_of_mem _ hq2))
    simpa [pushAndUse, List.foldl] using this

theorem pushAndUse_inv_weak : ∀ (l : List QueuedWorkSpace) (sk : SpaceKeeper), skInvWeak sk →
    (∀ q ∈ l, q.sid ∈ heapKeys sk.heap) → skInvWeak (pushAndUse sk l) := by
  intro l
  induction l with
  | nil => exact fun sk hinv _ => hinv
  | cons q rest ih =>
    intro sk hinv hall
    have hstep : skInvWeak (useWorkSpace { sk with queue := sk.queue ++ [q] } q.sid) := by
      refine skInvWeak_useWorkSpace ?_ ?_
      · exact skInvWeak_congr rfl rfl hinv
      · exact hall q (List.mem_cons_self _ _)
    have hkeys : heapKeys (useWorkSpace { sk with queue := sk.queue ++ [q] } q.sid).heap =
        heapKeys sk.heap := useWorkSpace_heap_keys _ _
    have := ih (useWorkSpace { sk with queue := sk.queue ++ [q] } q.sid) hstep
      (fun q2 hq2 => by rw [hkeys]; exact hall q2 (List.mem_cons_of_mem _ hq2))
    simpa [pushAndUse, List.foldl] using this

theorem foldSetUsing_keys : ∀ (sids : List SpaceID) (h : List (SpaceID × WSData)),
    heapKeys (sids.foldl (fun h s => setUsing s false h) h) = heapKeys h := by
  intro sids
  induction sids with
  | nil => exact fun h => rfl
  | cons s rest ih =>
    intro h
    simp only [List.foldl]
    rw [ih, heapKeys_setUsing]

theorem foldSetUsing_false : ∀ (sids : List SpaceID) (h : List (SpaceID × WSData)),
    (∀ e ∈ h, e.2.usingFlag = true → e.1 ∈ sids) →
    ∀ e ∈ sids.foldl (fun h s => setUsing s false h) h, e.2.usingFlag = false := by
  intro sids
  induction sids with
  | nil =>
    intro h hall e he
    cases hu : e.2.usingFlag
    · rfl
    · exact absurd (hall e he hu) (List.not_mem_nil _)
  | cons s rest ih =>
    intro h hall e he
    simp only [List.foldl] at he
    refine ih (setUsing s false h) ?_ e he
    intro e2 he2 hu2
    obtain ⟨e0, he0, h1, h2⟩ := mem_setUsing he2
    by_cases hc : e0.1 = s
    · rw [if_pos hc] at h2
      rw [h2] at hu2
      simp at hu2
    · rw [if_neg hc] at h2
      rw [h2] at hu2
      have := hall e0 he0 hu2
      rcases List.mem_cons.mp this with hmm | hmm
      · exact absurd hmm hc
      · rw [h1]
        exact hmm

theorem skInv_cleared (sk : SpaceKeeper) (hinv : skInv sk) :
    skInv { markUnusing sk with wsList := [] } := by
  obtain ⟨hk, _hw, _hsub, hiff⟩ := hinv
  refine ⟨?_, List.nodup_nil, ?_, ?_⟩
  · show (heapKeys (markUnusing sk).heap).Nodup
    unfold markUnusing
    simpa [foldSetUsing_keys] using hk
  · intro s hsm
    exact absurd hsm (List.not_mem_nil _)
  · intro e he
    have hfalse : e.2.usingFlag = false := by
      refine foldSetUsing_false sk.wsList sk.heap ?_ e he
      intro e2 he2 hu2
      exact (hiff e2 he2).mp hu2
    simp [hfalse]

theorem mem_insertByPrio {q x : QueuedWorkSpace} : ∀ {l : List QueuedWorkSpace},
    x ∈ insertByPrio q l ↔ x = q ∨ x ∈ l := by
  intro l
  induction l with
  | nil => simp [insertByPrio]
  | cons y rest ih =>
    simp only [insertByPrio]
    by_cases hc : prioLE q.prio y.prio
    · rw [if_pos hc]
      simp
    · rw [if_neg hc]
      simp only [List.mem_cons, ih]
      tauto

theorem mem_sortByPrio {x : QueuedWorkSpace} : ∀ {l : List QueuedWorkSpace},
    x ∈ sortByPrio l ↔ x ∈ l := by
  intro l
  induction l with
  | nil => simp [sortByPrio]
  | cons y rest ih =>
    simp only [sortByPrio, List.foldr] at *
    rw [mem_insertByPrio, ih, List.mem_cons]

/-! ## Preservation lemmas for the planner building blocks -/

theorem idxInsert_heap (st : WSState) (sid : SpaceID) (sk : SpaceKeeper) :
    (idxInsert st sid sk).heap = sk.heap := by
  cases st <;> rfl

theorem idxInsert_wsList (st : WSState) (sid : SpaceID) (sk : SpaceKeeper) :
    (idxInsert st sid sk).wsList = sk.wsList := by
  cases st <;> rfl

theorem idxDelete_heap (st : WSState) (sid : SpaceID) (sk : SpaceKeeper) :
    (idxDelete st sid sk).heap = sk.heap := by
  cases st <;> rfl

theorem idxDelete_wsList (st : WSState) (sid : SpaceID) (sk : SpaceKeeper) :
    (idxDelete st sid sk).wsList = sk.wsList := by
  cases st <;> rfl

theorem addWS_keys_mono {sk : SpaceKeeper} {sid s : SpaceID} {d : WSData}
    (hs : s ∈ heapKeys sk.heap) : s ∈ heapKeys (addWorkSpaceToIndex sk sid d).heap := by
  unfold addWorkSpaceToIndex
  by_cases hc : sid ∈ heapKeys sk.heap
  · rw [if_pos hc]
    exact hs
  · rw [if_neg hc, idxInsert_heap]
    show s ∈ heapKeys (sk.heap ++ [(sid, d)])
    unfold heapKeys at *
    rw [List.map_append, List.mem_append]
    exact Or.inl hs

theorem addWS_keys_self {sk : SpaceKeeper} {sid : SpaceID} {d : WSData} :
    sid ∈ heapKeys (addWorkSpaceToIndex sk sid d).heap := by
  unfold addWorkSpaceToIndex
  by_cases hc : sid ∈ heapKeys sk.heap
  · rw [if_pos hc]
    exact hc
  · rw [if_neg hc, idxInsert_heap]
    show sid ∈ heapKeys (sk.heap ++ [(sid, d)])
    unfold heapKeys
    rw [List.map_append, List.mem_append]
    exact Or.inr (by simp)

theorem skInv_addWS {sk : SpaceKeeper} {sid : SpaceID} {d : WSData} (hinv : skInv sk)
    (hflag : d.usingFlag = false) : skInv (addWorkSpaceToIndex sk sid d) := by
  obtain ⟨hk, hw, hsub, hiff⟩ := hinv
  unfold addWorkSpaceToIndex
  by_cases hc : sid ∈ heapKeys sk.heap
  · rw [if_pos hc]
    exact ⟨hk, hw, hsub, hiff⟩
  · rw [if_neg hc]
    refine skInv_congr (idxInsert_heap _ _ _) (idxInsert_wsList _ _ _) ?_
    refine ⟨?_, hw, ?_, ?_⟩
    · show (heapKeys (sk.heap ++ [(sid, d)])).Nodup
      unfold heapKeys at *
      rw [List.map_append]
      simp only [List.map_cons, List.map_nil]
      rw [List.nodup_append]
      exact ⟨hk, List.nodup_singleton _, by simpa using fun hmm => hc hmm⟩
    · intro s hsm
      show s ∈ heapKeys (sk.heap ++ [(sid, d)])
      unfold heapKeys
      rw [List.map_append, List.mem_append]
      exact Or.inl (hsub s hsm)
    · intro e he
      rcases List.mem_append.mp he with he | he
      · exact hiff e he
      · simp at he
        subst he
        simp only [hflag]
        constructor
        · intro hff
          exact absurd hff (by simp)
        · intro hmm
          exact absurd (hsub sid hmm) hc

theorem skInvWeak_addWS {sk : SpaceKeeper} {sid : SpaceID} {d : WSData} (hinv : skInvWeak sk)
    (_hflag : d.usingFlag = false) : skInvWeak (addWorkSpaceToIndex sk sid d) := by
  obtain ⟨hk, hw, hsub, himp⟩ := hinv
  unfold addWorkSpaceToIndex
  by_cases hc : sid ∈ heapKeys sk.heap
  · rw [if_pos hc]
    exact ⟨hk, hw, hsub, himp⟩
  · rw [if_neg hc]
    refine skInvWeak_congr (idxInsert_heap _ _ _) (idxInsert_wsList _ _ _) ?_
    refine ⟨?_, hw, ?_, ?_⟩
    · show (heapKeys (sk.heap ++ [(sid, d)])).Nodup
      unfold heapKeys at *
      rw [List.map_append]
      simp only [List.map_cons, List.map_nil]
      rw [List.nodup_append]
      exact ⟨hk, List.nodup_singleton _, by simpa using fun hmm => hc hmm⟩
    · intro s hsm
      show s ∈ heapKeys (sk.heap ++ [(sid, d)])
      unfold heapKeys
      rw [List.map_append, List.mem_append]
      exact Or.inl (hsub s hsm)
    · intro e he hme
      rcases List.mem_append.mp he with he | he
      · exact himp e he hme
      · simp at he
        subst he
        exact absurd (hsub sid hme) hc

theorem genOk_refl (sk : SpaceKeeper) (dst : List SpaceID) : genOk sk sk dst dst :=
  ⟨id, id, fun _ h => h⟩

theorem genOk_trans {sk1 sk2 sk3 : SpaceKeeper} {d1 d2 d3 : List SpaceID}
    (a : genOk sk1 sk2 d1 d2) (b : genOk sk2 sk3 d2 d3) : genOk sk1 sk3 d1 d3 :=
  ⟨fun h => b.1 (a.1 h), fun h => b.2.1 (a.2.1 h), fun s hs => b.2.2 s (a.2.2 s hs)⟩

theorem genOk_addWS {sk : SpaceKeeper} {sid : SpaceID} {dst : List SpaceID} :
    genOk sk (addWorkSpaceToIndex sk sid ⟨.registered, false⟩) dst (dst ++ [sid]) := by
  refine ⟨fun h => skInv_addWS h rfl, ?_, fun s hs => addWS_keys_mono hs⟩
  intro hall s hsm
  rcases List.mem_append.mp hsm with hsm | hsm
  · exact addWS_keys_mono (hall s hsm)
  · simp at hsm
    subst hsm
    exact addWS_keys_self

theorem genLoopBL_ok : ∀ (stream : List (Except Err (Nat × Nat))) (sk : SpaceKeeper)
    (dst : List SpaceID) (bl : Nat) (cur count : Int),
    genOk sk (genLoopBL stream sk dst bl cur count).1 dst
      (genLoopBL stream sk dst bl cur count).2.1 := by
  intro stream
  induction stream with
  | nil =>
    intro sk dst bl cur count
    unfold genLoopBL
    by_cases hc : cur = count
    · rw [if_pos hc]
      exact genOk_refl _ _
    · rw [if_neg hc]
      exact genOk_refl _ _
  | cons g rest ih =>
    intro sk dst bl cur count
    unfold genLoopBL
    by_cases hc : cur = count
    · rw [if_pos hc]
      exact genOk_refl _ _
    · rw [if_neg hc]
      cases g with
      | error e => exact genOk_refl _ _
      | ok kp =>
        obtain ⟨pk, ord⟩ := kp
        exact genOk_trans genOk_addWS (ih _ _ bl (cur + 1) count)

theorem genAllBL_ok : ∀ (target : List (Nat × Int)) (stream : List (Except Err (Nat × Nat)))
    (sk : SpaceKeeper) (dst : List SpaceID) (cur : List (Nat × Int)),
    genOk sk (genAllBL target stream sk dst cur).1 dst (genAllBL target stream sk dst cur).2.1 := by
  intro target
  induction target with
  | nil =>
    intro stream sk dst cur
    exact genOk_refl _ _
  | cons e rest ih =>
    intro stream sk dst cur
    obtain ⟨bl, count⟩ := e
    have h1 := genLoopBL_ok stream sk dst bl (getCnt cur bl) count
    simp only [genAllBL]
    cases herr : (genLoopBL stream sk dst bl (getCnt cur bl) count).2.2.2 with
    | some e2 => exact h1
    | none =>
      have h2 := ih (genLoopBL stream sk dst bl (getCnt cur bl) count).2.2.1
        (genLoopBL stream sk dst bl (getCnt cur bl) count).1
        (genLoopBL stream sk dst bl (getCnt cur bl) count).2.1 (setCnt cur bl count)
      exact genOk_trans h1 h2

theorem generateFillBL_ok (diskFree : Except Err Int) (genStream : List (Except Err (Nat × Nat)))
    (blds : Nat → Int) (sk : SpaceKeeper) (dst : List SpaceID) (cur target : List (Nat × Int)) :
    genOk sk (generateFillSpaceListByBitLength diskFree genStream blds sk dst cur target).1 dst
      (generateFillSpaceListByBitLength diskFree genStream blds sk dst cur target).2.1 := by
  unfold generateFillSpaceListByBitLength
  by_cases hg : sk.allowGenerateNewSpace = false
  · simp [hg]
    exact genOk_refl _ _
  · simp only [hg, if_false]
    cases hchk : checkOSDiskSize diskFree
        (target.foldl (fun acc e => acc + (e.2 - getCnt cur e.1) * blds e.1) 0) with
    | some e => exact genOk_refl _ _
    | none => exact genAllBL_ok target genStream sk dst cur

theorem genLoopSize_ok : ∀ (stream : List (Except Err (Nat × Nat))) (blds : Nat → Int)
    (target : Int) (bl : Nat) (sk : SpaceKeeper) (dst : List SpaceID) (cur : Int),
    genOk sk (genLoopSize blds target bl stream sk dst cur).1 dst
      (genLoopSize blds target bl stream sk dst cur).2.1 := by
  intro stream
  induction stream with
  | nil =>
    intro blds target bl sk dst cur
    unfold genLoopSize
    by_cases hc : target - cur < blds bl
    · rw [if_pos hc]
      exact genOk_refl _ _
    · rw [if_neg hc]
      exact genOk_refl _ _
  | cons g rest ih =>
    intro blds target bl sk dst cur
    unfold genLoopSize
    by_cases hc : target - cur < blds bl
    · rw [if_pos hc]
      exact genOk_refl _ _
    · rw [if_neg hc]
      cases g with
      | error e => exact genOk_refl _ _
      | ok kp =>
        obtain ⟨pk, ord⟩ := kp
        exact genOk_trans genOk_addWS (ih blds target bl _ _ (cur + blds bl))

theorem genAllSize_ok : ∀ (bls : List Nat) (blds : Nat → Int) (target : Int)
    (stream : List (Except Err (Nat × Nat))) (sk : SpaceKeeper) (dst : List SpaceID) (cur : Int),
    genOk sk (genAllSize blds target bls stream sk dst cur).1 dst
      (genAllSize blds target bls stream sk dst cur).2.1 := by
  intro bls
  induction bls with
  | nil =>
    intro blds target stream sk dst cur
    exact genOk_refl _ _
  | cons bl rest ih =>
    intro blds target stream sk dst cur
    have h1 := genLoopSize_ok stream blds target bl sk dst cur
    simp only [genAllSize]
    cases herr : (genLoopSize blds target bl stream sk dst cur).2.2.2.2 with
    | some e => exact h1
    | none =>
      exact genOk_trans h1 (ih blds target _ _ _ _)

theorem generateFillSize_ok (diskFree : Except Err Int) (genStream : List (Except Err (Nat × Nat)))
    (blds : Nat → Int) (sk : SpaceKeeper) (dst : List SpaceID) (cur target : Int) :
    genOk sk (generateFillSpaceListBySize diskFree genStream blds sk dst cur target).1 dst
      (generateFillSpaceListBySize diskFree genStream blds sk dst cur target).2.1 := by
  unfold generateFillSpaceListBySize
  by_cases hg : sk.allowGenerateNewSpace = false
  · simp only [hg, if_true]
    exact genOk_refl _ _
  · simp only [hg, if_false]
    cases hchk : checkOSDiskSize diskFree (target - cur) with
    | some e => exact genOk_refl _ _
    | none => exact genAllSize_ok usableBitLength.reverse blds target genStream sk dst cur

theorem genPKLoop_ok : ∀ (pubKeyBL : List (Nat × Nat)) (nwsErr : SpaceID → Option Err)
    (pko : Nat → Nat) (sk : SpaceKeeper) (dst : List SpaceID),
    genOk sk (genPKLoop nwsErr pko pubKeyBL sk dst).1 dst (genPKLoop nwsErr pko pubKeyBL sk dst).2.1 := by
  intro pubKeyBL
  induction pubKeyBL with
  | nil =>
    intro nwsErr pko sk dst
    exact genOk_refl _ _
  | cons e rest ih =>
    intro nwsErr pko sk dst
    obtain ⟨pk, bl⟩ := e
    unfold genPKLoop
    by_cases hc : (⟨pko pk, pk, bl⟩ : SpaceID) ∈ heapKeys sk.heap
    · rw [if_pos hc]
      have h1 : genOk sk sk dst (dst ++ [⟨pko pk, pk, bl⟩]) := by
        refine ⟨id, ?_, fun _ h => h⟩
        intro hall s hsm
        rcases List.mem_append.mp hsm with hsm | hsm
        · exact hall s hsm
        · simp at hsm
          subst hsm
          exact hc
      exact genOk_trans h1 (ih nwsErr pko sk _)
    · rw [if_neg hc]
      cases hnws : nwsErr ⟨pko pk, pk, bl⟩ with
      | some e2 => exact genOk_refl _ _
      | none => exact genOk_trans genOk_addWS (ih nwsErr pko _ _)

theorem generateFillPK_ok (diskFree : Except Err Int) (nwsErr : SpaceID → Option Err)
    (blds : Nat → Int) (sk : SpaceKeeper) (dst : List SpaceID) (pubKeyBL : List (Nat × Nat))
    (pko : Nat → Nat) :
    genOk sk (generateFillSpaceListByPubKey diskFree nwsErr blds sk dst pubKeyBL pko).1 dst
      (generateFillSpaceListByPubKey diskFree nwsErr blds sk dst pubKeyBL pko).2.1 := by
  simp only [generateFillSpaceListByPubKey]
  cases hchk : checkOSDiskSize diskFree (pubKeyBL.foldl
      (fun acc e =>
        if (⟨pko e.1, e.1, e.2⟩ : SpaceID) ∈ heapKeys sk.heap then acc else acc + blds e.2) 0) with
  | some e => exact genOk_refl _ _
  | none => exact genPKLoop_ok pubKeyBL nwsErr pko sk dst

/-! ## The fill results stay within the indexed store -/

theorem mlookup_mem {m : List (Nat × List SpaceID)} {k : Nat} {v : List SpaceID}
    (h : mlookup m k = some v) : (k, v) ∈ m := by
  induction m with
  | nil => exact absurd h (by simp [mlookup])
  | cons e rest ih =>
    obtain ⟨k0, v0⟩ := e
    by_cases hc : k0 = k
    · simp only [mlookup, if_pos hc] at h
      cases h
      subst hc
      exact List.mem_cons_self _ _
    · simp only [mlookup, if_neg hc] at h
      exact List.mem_cons_of_mem _ (ih h)

theorem bucketFor_subset {sk : SpaceKeeper} {bl : Nat} {s : SpaceID}
    (hs : s ∈ bucketFor sk bl) : s ∈ heapKeys sk.heap := by
  unfold bucketFor at hs
  obtain ⟨q, hq, hqs⟩ := List.mem_map.mp hs
  rw [mem_sortByPrio] at hq
  obtain ⟨e, he, hqe⟩ := List.mem_map.mp hq
  have : q.sid = e.1 := by rw [← hqe]
  rw [← hqs, this]
  exact List.mem_map.mpr ⟨e, List.mem_of_mem_filter he, rfl⟩

theorem getIndexed_subset {sk : SpaceKeeper} {bl : Nat} {spaces : List SpaceID}
    (h : mlookup (getIndexedWorkSpaces sk) bl = some spaces) :
    ∀ s ∈ spaces, s ∈ heapKeys sk.heap := by
  have hm := mlookup_mem h
  unfold getIndexedWorkSpaces at hm
  obtain ⟨bl0, _hbl0, heq⟩ := List.mem_map.mp hm
  intro s hs
  have hsp : spaces = bucketFor sk bl0 := by
    have := congrArg Prod.snd heq
    simpa using this.symm
  rw [hsp] at hs
  exact bucketFor_subset hs

theorem fillOneBL_subset : ∀ (spaces dst : List SpaceID) (cur count : Int) (s : SpaceID),
    s ∈ (fillOneBL dst spaces cur count).1 → s ∈ dst ∨ s ∈ spaces := by
  intro spaces
  induction spaces with
  | nil =>
    intro dst cur count s hs
    exact Or.inl hs
  | cons sp rest ih =>
    intro dst cur count s hs
    unfold fillOneBL at hs
    by_cases hc : cur = count
    · rw [if_pos hc] at hs
      exact Or.inl hs
    · rw [if_neg hc] at hs
      rcases ih (dst ++ [sp]) (cur + 1) count s hs with hmm | hmm
      · rcases List.mem_append.mp hmm with hmm | hmm
        · exact Or.inl hmm
        · simp at hmm
          subst hmm
          exact Or.inr (List.mem_cons_self _ _)
      · exact Or.inr (List.mem_cons_of_mem _ hmm)

theorem fillBL_subset : ∀ (target : List (Nat × Int)) (dst : List SpaceID)
    (srcMap : List (Nat × List SpaceID)) (cur : List (Nat × Int)) (s : SpaceID),
    s ∈ (fillSpaceListByBitLength dst srcMap cur target).1 →
    s ∈ dst ∨ ∃ bl spaces, mlookup srcMap bl = some spaces ∧ s ∈ spaces := by
  intro target
  induction target with
  | nil =>
    intro dst srcMap cur s hs
    exact Or.inl hs
  | cons e rest ih =>
    intro dst srcMap cur s hs
    obtain ⟨bl, count⟩ := e
    unfold fillSpaceListByBitLength at hs
    cases hl : mlookup srcMap bl with
    | none =>
      rw [hl] at hs
      exact ih dst srcMap cur s hs
    | some spaces =>
      rw [hl] at hs
      rcases ih _ srcMap (setCnt cur bl (fillOneBL dst spaces (getCnt cur bl) count).2) s hs with
        hmm | hmm
      · rcases fillOneBL_subset spaces dst (getCnt cur bl) count s hmm with h2 | h2
        · exact Or.inl h2
        · exact Or.inr ⟨bl, spaces, hl, h2⟩
      · exact Or.inr hmm

theorem fillBucket_subset : ∀ (spaces dst : List SpaceID) (sz target cur : Int) (s : SpaceID),
    s ∈ (fillBucket sz target spaces dst cur).1 → s ∈ dst ∨ s ∈ spaces := by
  intro spaces
  induction spaces with
  | nil =>
    intro dst sz target cur s hs
    exact Or.inl hs
  | cons sp rest ih =>
    intro dst sz target cur s hs
    unfold fillBucket at hs
    by_cases hc : cur + sz > target
    · rw [if_pos hc] at hs
      rcases ih dst sz target cur s hs with hmm | hmm
      · exact Or.inl hmm
      · exact Or.inr (List.mem_cons_of_mem _ hmm)
    · rw [if_neg hc] at hs
      rcases ih (dst ++ [sp]) sz target (cur + sz) s hs with hmm | hmm
      · rcases List.mem_append.mp hmm with hmm | hmm
        · exact Or.inl hmm
        · simp at hmm
          subst hmm
          exact Or.inr (List.mem_cons_self _ _)
      · exact Or.inr (List.mem_cons_of_mem _ hmm)

theorem fillSize_subset (blds : Nat → Int) (minDiskSize : Int) (dst : List SpaceID)
    (srcMap : List (Nat × List SpaceID)) (cur target : Int) (s : SpaceID)
    (hs : s ∈ (fillSpaceListBySize blds minDiskSize dst srcMap cur target).1) :
    s ∈ dst ∨ ∃ bl spaces, mlookup srcMap bl = some spaces ∧ s ∈ spaces := by
  have key : ∀ (bls : List Nat) (dst0 : List SpaceID) (cur0 : Int),
      s ∈ (bls.foldl (fun (acc : List SpaceID × Int) (bl : Nat) =>
          match mlookup srcMap bl with
          | none => acc
          | some spaces => fillBucket (blds bl) target spaces acc.1 acc.2) (dst0, cur0)).1 →
      s ∈ dst0 ∨ ∃ bl spaces, mlookup srcMap bl = some spaces ∧ s ∈ spaces := by
    intro bls
    induction bls with
    | nil =>
      intro dst0 cur0 h
      exact Or.inl h
    | cons bl rest ih =>
      intro dst0 cur0 h
      simp only [List.foldl] at h
      cases hl : mlookup srcMap bl with
      | none =>
        rw [hl] at h
        exact ih dst0 cur0 h
      | some spaces =>
        rw [hl] at h
        rcases ih _ _ h with hmm | hmm
        · rcases fillBucket_subset spaces dst0 (blds bl) target cur0 s hmm with h2 | h2
          · exact Or.inl h2
          · exact Or.inr ⟨bl, spaces, hl, h2⟩
        · exact Or.inr hmm
  unfold fillSpaceListBySize at hs
  by_cases hfin : ((usableBitLength.reverse).foldl (fun (acc : List SpaceID × Int) (bl : Nat) =>
      match mlookup srcMap bl with
      | none => acc
      | some spaces => fillBucket (blds bl) target spaces acc.1 acc.2) (dst, cur)).2 = target ∨
      target - ((usableBitLength.reverse).foldl (fun (acc : List SpaceID × Int) (bl : Nat) =>
      match mlookup srcMap bl with
      | none => acc
      | some spaces => fillBucket (blds bl) target spaces acc.1 acc.2) (dst, cur)).2 < minDiskSize
  · rw [if_pos hfin] at hs
    exact key usableBitLength.reverse dst cur hs
  · rw [if_neg hfin] at hs
    exact key usableBitLength.reverse dst cur hs

/-! ## Invariant preservation through the success closures -/

theorem skInv_successReturnBL {sk : SpaceKeeper} {resultList : List SpaceID}
    (ep em : Bool) (hinv : skInv sk) (hsub : ∀ s ∈ resultList, s ∈ heapKeys sk.heap) :
    skInv (successReturnBL sk resultList ep em).1 := by
  simp only [successReturnBL]
  by_cases hlen : resultList.length = 0
  · rw [if_pos hlen]
    exact hinv
  · rw [if_neg hlen]
    have hclear : skInv { markUnusing sk with wsList := [] } := skInv_cleared sk hinv
    have hkeys : heapKeys ({ markUnusing sk with wsList := ([] : List SpaceID) }).heap =
        heapKeys sk.heap := by
      show heapKeys (markUnusing sk).heap = heapKeys sk.heap
      unfold markUnusing
      exact foldSetUsing_keys sk.wsList sk.heap
    have hpush : skInv (pushAndUse { markUnusing sk with wsList := [] }
        (sortByPrio (resultList.map fun s =>
          newQueuedWorkSpace { markUnusing sk with wsList := [] } s em))) := by
      refine pushAndUse_inv _ _ hclear ?_
      intro q hq
      rw [mem_sortByPrio] at hq
      obtain ⟨s, hsm, hqs⟩ := List.mem_map.mp hq
      have : q.sid = s := by rw [← hqs]; rfl
      rw [hkeys, this]
      exact hsub s hsm
    by_cases hexec : (em || ep) = false
    · rw [if_pos hexec]
      exact skInv_congr rfl rfl hpush
    · rw [if_neg hexec]
      exact skInv_congr rfl rfl hpush

theorem skInv_successReturnSize {sk : SpaceKeeper} {resultList : List SpaceID}
    (hinv : skInv sk) (hsub : ∀ s ∈ resultList, s ∈ heapKeys sk.heap) :
    skInv (successReturnSize sk resultList).1 := by
  simp only [successReturnSize]
  by_cases hlen : resultList.length = 0
  · rw [if_pos hlen]
    exact hinv
  · rw [if_neg hlen]
    have hq0 : skInv { sk with queue := ([] : List QueuedWorkSpace) } := skInv_congr rfl rfl hinv
    have hclear : skInv { markUnusing { sk with queue := ([] : List QueuedWorkSpace) } with
        wsList := [] } := skInv_cleared _ hq0
    have hkeys : heapKeys ({ markUnusing { sk with queue := ([] : List QueuedWorkSpace) } with
        wsList := ([] : List SpaceID) }).heap = heapKeys sk.heap := by
      show heapKeys (markUnusing { sk with queue := ([] : List QueuedWorkSpace) }).heap =
        heapKeys sk.heap
      unfold markUnusing
      exact foldSetUsing_keys _ _
    have hpush : skInv (pushAndUse
        { markUnusing { sk with queue := ([] : List QueuedWorkSpace) } with wsList := [] }
        (sortByPrio (resultList.map fun s =>
          newQueuedWorkSpace { markUnusing { sk with queue := ([] : List QueuedWorkSpace) } with
            wsList := [] } s false))) := by
      refine pushAndUse_inv _ _ hclear ?_
      intro q hq
      rw [mem_sortByPrio] at hq
      obtain ⟨s, hsm, hqs⟩ := List.mem_map.mp hq
      have : q.sid = s := by rw [← hqs]; rfl
      rw [hkeys, this]
      exact hsub s hsm
    exact skInv_congr rfl rfl hpush

theorem skInvWeak_successReturnPK {sk : SpaceKeeper} {resultList : List SpaceID}
    (targetLen : Nat) (ep em : Bool) (hinv : skInv sk)
    (hsub : ∀ s ∈ resultList, s ∈ heapKeys sk.heap) :
    skInvWeak (successReturnPK sk resultList targetLen ep em).1 := by
  simp only [successReturnPK]
  by_cases hlen : resultList.length ≠ targetLen
  · rw [if_pos hlen]
    exact skInv_weaken hinv
  · rw [if_neg hlen]
    have hclear : skInvWeak { sk with wsList := ([] : List SpaceID) } := by
      refine ⟨hinv.1, List.nodup_nil, ?_, ?_⟩
      · intro s hsm
        exact absurd hsm (List.not_mem_nil _)
      · intro e _he hme
        exact absurd hme (List.not_mem_nil _)
    have hpush : skInvWeak (pushAndUse { sk with wsList := ([] : List SpaceID) }
        (sortByPrio (resultList.map fun s =>
          newQueuedWorkSpace { sk with wsList := ([] : List SpaceID) } s em))) := by
      refine pushAndUse_inv_weak _ _ hclear ?_
      intro q hq
      rw [mem_sortByPrio] at hq
      obtain ⟨s, hsm, hqs⟩ := List.mem_map.mp hq
      have : q.sid = s := by rw [← hqs]; rfl
      rw [this]
      exact hsub s hsm
    by_cases hexec : (em || ep) = false
    · rw [if_pos hexec]
      exact skInvWeak_congr rfl rfl hpush
    · rw [if_neg hexec]
      exact skInvWeak_congr rfl rfl hpush

/-! ## Invariant preservation per operation -/

theorem skInv_heap_setState {sk : SpaceKeeper} {sk2 : SpaceKeeper} {sid : SpaceID} {st : WSState}
    (h2 : sk2.heap = setState sid st sk.heap) (h3 : sk2.wsList = sk.wsList) (hinv : skInv sk) :
    skInv sk2 := by
  obtain ⟨hk, hw, hsub, hiff⟩ := hinv
  refine ⟨?_, ?_, ?_, ?_⟩
  · rw [h2, heapKeys_setState]
    exact hk
  · rw [h3]
    exact hw
  · intro s hsm
    rw [h3] at hsm
    rw [h2, heapKeys_setState]
    exact hsub s hsm
  · intro e he
    rw [h2] at he
    obtain ⟨e0, he0, hfst, hflag⟩ := mem_setState he
    rw [h3, hfst, hflag]
    exact hiff e0 he0

theorem skInv_PlotWS (sk : SpaceKeeper) (sid : SpaceID) (hinv : skInv sk) :
    skInv (PlotWS sk sid).1 := by
  unfold PlotWS
  split
  · exact hinv
  · split
    · exact hinv
    · split
      · exact skInv_congr rfl rfl hinv
      · split
        · split
          · split
            · exact hinv
            · exact skInv_congr rfl rfl hinv
          · exact hinv
        · exact hinv

theorem skInv_MineWS (sk : SpaceKeeper) (sid : SpaceID) (hinv : skInv sk) :
    skInv (MineWS sk sid).1 := by
  unfold MineWS
  split
  · exact hinv
  · split
    · exact hinv
    · split
      · exact skInv_congr rfl rfl hinv
      · split
        · split
          · split
            · exact hinv
            · exact skInv_congr rfl rfl hinv
          · exact hinv
        · split
          · exact skInv_heap_setState rfl rfl hinv
          · exact hinv

theorem skInv_StopWS (spErr : SpaceID → Option Err) (sk : SpaceKeeper) (sid : SpaceID)
    (hinv : skInv sk) : skInv (StopWS spErr sk sid).1 := by
  have hq1 : skInv { sk with queue := queueDelete sid sk.queue } := skInv_congr rfl rfl hinv
  simp only [StopWS]
  split
  · exact hinv
  · split
    · exact hinv
    · split
      · split
        · split
          · exact hq1
          · exact skInv_congr rfl rfl hq1
        · exact hq1
      · split
        · exact skInv_heap_setState rfl rfl hq1
        · exact hq1

theorem skInv_disuse {sk : SpaceKeeper} (sid : SpaceID) (hinv : skInv sk) :
    skInv (disuseWorkSpace sk sid) := by
  obtain ⟨hk, hw, hsub, hiff⟩ := hinv
  refine ⟨?_, ?_, ?_, ?_⟩
  · show (heapKeys (setUsing sid false sk.heap)).Nodup
    rw [heapKeys_setUsing]
    exact hk
  · exact nodup_deleteFromSlice hw
  · intro s hsm
    show s ∈ heapKeys (setUsing sid false sk.heap)
    rw [heapKeys_setUsing]
    exact hsub s (mem_deleteFromSlice hsm)
  · intro e he
    obtain ⟨e0, he0, hfst, hsnd⟩ := mem_setUsing he
    by_cases hc : e0.1 = sid
    · rw [if_pos hc] at hsnd
      rw [hfst, hsnd, hc]
      simp only [show ({ e0.2 with usingFlag := false } : WSData).usingFlag = false from rfl]
      constructor
      · intro hff
        exact absurd hff (by simp)
      · intro hmm
        exact absurd hmm (not_mem_deleteFromSlice hw)
    · rw [if_neg hc] at hsnd
      rw [hfst, hsnd]
      rw [show (disuseWorkSpace sk sid).wsList = deleteFromSlice sk.wsList sid from rfl]
      rw [mem_deleteFromSlice_of_ne hc]
      exact hiff e0 he0

theorem skInv_RemoveWS (sk : SpaceKeeper) (sid : SpaceID) (hinv : skInv sk) :
    skInv (RemoveWS sk sid).1 := by
  have hq1 : skInv { sk with queue := queueDelete sid sk.queue } := skInv_congr rfl rfl hinv
  simp only [RemoveWS]
  split
  · exact hinv
  · split
    · exact hinv
    · split
      · exact skInv_disuse sid hq1
      · exact hq1

theorem skInv_deleteBranch {sk1 : SpaceKeeper} (sid : SpaceID) (st : WSState)
    (hinv : skInv sk1) :
    skInv { idxDelete st sid sk1 with
            heap := aerase sid (idxDelete st sid sk1).heap,
            wsList := deleteFromSlice (idxDelete st sid sk1).wsList sid } := by
  obtain ⟨hk, hw, hsub, hiff⟩ := hinv
  refine ⟨?_, ?_, ?_, ?_⟩
  · show (heapKeys (aerase sid (idxDelete st sid sk1).heap)).Nodup
    rw [idxDelete_heap, heapKeys_aerase]
    exact nodup_removeSid hk
  · show (deleteFromSlice (idxDelete st sid sk1).wsList sid).Nodup
    rw [idxDelete_wsList]
    exact nodup_deleteFromSlice hw
  · intro s hsm
    rw [show ({ idxDelete st sid sk1 with
        heap := aerase sid (idxDelete st sid sk1).heap,
        wsList := deleteFromSlice (idxDelete st sid sk1).wsList sid } : SpaceKeeper).wsList =
      deleteFromSlice (idxDelete st sid sk1).wsList sid from rfl, idxDelete_wsList] at hsm
    show s ∈ heapKeys (aerase sid (idxDelete st sid sk1).heap)
    rw [idxDelete_heap, heapKeys_aerase, mem_removeSid]
    have hne : s ≠ sid := by
      intro heq
      subst heq
      exact not_mem_deleteFromSlice hw hsm
    exact ⟨hsub s (mem_deleteFromSlice hsm), hne⟩
  · intro e he
    rw [show ({ idxDelete st sid sk1 with
        heap := aerase sid (idxDelete st sid sk1).heap,
        wsList := deleteFromSlice (idxDelete st sid sk1).wsList sid } : SpaceKeeper).heap =
      aerase sid (idxDelete st sid sk1).heap from rfl, idxDelete_heap] at he
    obtain ⟨hmem, hne⟩ := mem_aerase.mp he
    rw [show ({ idxDelete st sid sk1 with
        heap := aerase sid (idxDelete st sid sk1).heap,
        wsList := deleteFromSlice (idxDelete st sid sk1).wsList sid } : SpaceKeeper).wsList =
      deleteFromSlice (idxDelete st sid sk1).wsList sid from rfl, idxDelete_wsList,
      mem_deleteFromSlice_of_ne hne]
    exact hiff e hmem

theorem skInv_DeleteWS (deleteErr : SpaceID → Option Err) (sk : SpaceKeeper) (sid : SpaceID)
    (hinv : skInv sk) : skInv (DeleteWS deleteErr sk sid).1 := by
  have hq1 : skInv { sk with queue := queueDelete sid sk.queue } := skInv_congr rfl rfl hinv
  simp only [DeleteWS]
  split
  · exact hinv
  · split
    · exact hinv
    · split
      · exact skInv_deleteBranch sid _ hq1
      · exact hq1

theorem skInv_ConfigureByBitLength (diskFree : Except Err Int)
    (genStream : List (Except Err (Nat × Nat))) (blds : Nat → Int) (sk : SpaceKeeper)
    (blCount : List (Nat × Int)) (ep em : Bool) (hinv : skInv sk) :
    skInv (ConfigureByBitLength diskFree genStream blds sk blCount ep em).1 := by
  unfold ConfigureByBitLength
  by_cases hs : sk.started
  · rw [if_pos hs]
    exact hinv
  · rw [if_neg hs]
    by_cases hcfg : sk.configuring
    · rw [if_pos hcfg]
      exact hinv
    · rw [if_neg hcfg]
      have hinv0 : skInv { sk with configured := false } := skInv_congr rfl rfl hinv
      set sk0 : SpaceKeeper := { sk with configured := false } with hsk0
      have hfillsub : ∀ s ∈ (fillSpaceListByBitLength [] (getIndexedWorkSpaces sk0) [] blCount).1,
          s ∈ heapKeys sk0.heap := by
        intro s hsm
        rcases fillBL_subset blCount [] (getIndexedWorkSpaces sk0) [] s hsm with hmm | hmm
        · exact absurd hmm (List.not_mem_nil _)
        · obtain ⟨bl, spaces, hml, hsp⟩ := hmm
          exact getIndexed_subset hml s hsp
      by_cases hfin : (fillSpaceListByBitLength [] (getIndexedWorkSpaces sk0) [] blCount).2.2
      · simp only [hfin, if_true]
        exact skInv_successReturnBL ep em hinv0 hfillsub
      · simp only [hfin, if_false, Bool.false_eq_true]
        have hgen := generateFillBL_ok diskFree genStream blds sk0
          (fillSpaceListByBitLength [] (getIndexedWorkSpaces sk0) [] blCount).1
          (fillSpaceListByBitLength [] (getIndexedWorkSpaces sk0) [] blCount).2.1 blCount
        cases herr : (generateFillSpaceListByBitLength diskFree genStream blds sk0
            (fillSpaceListByBitLength [] (getIndexedWorkSpaces sk0) [] blCount).1
            (fillSpaceListByBitLength [] (getIndexedWorkSpaces sk0) [] blCount).2.1 blCount).2.2 with
        | some e => exact hgen.1 hinv0
        | none => exact skInv_successReturnBL ep em (hgen.1 hinv0) (hgen.2.1 hfillsub)

theorem skInv_ConfigureBySize (diskFree : Except Err Int)
    (genStream : List (Except Err (Nat × Nat))) (unlockErr : Option Err) (blds : Nat → Int)
    (minDiskSize : Int) (sk : SpaceKeeper) (targetSize : Int) (hinv : skInv sk) :
    skInv (ConfigureBySize diskFree genStream unlockErr blds minDiskSize sk targetSize).1 := by
  unfold ConfigureBySize
  by_cases hs : sk.started
  · rw [if_pos hs]
    exact hinv
  · rw [if_neg hs]
    by_cases hcfg : sk.configuring
    · rw [if_pos hcfg]
      exact hinv
    · rw [if_neg hcfg]
      have hinv0 : skInv { sk with configured := false } := skInv_congr rfl rfl hinv
      set sk0 : SpaceKeeper := { sk with configured := false } with hsk0
      by_cases hlow : targetSize < blds (usableBitLength.headD 0)
      · rw [if_pos hlow]
        exact hinv0
      · rw [if_neg hlow]
        cases unlockErr with
        | some e => exact hinv0
        | none =>
          have hfillsub : ∀ s ∈ (fillSpaceListBySize blds minDiskSize []
              (getIndexedWorkSpaces sk0) 0 targetSize).1, s ∈ heapKeys sk0.heap := by
            intro s hsm
            rcases fillSize_subset blds minDiskSize [] (getIndexedWorkSpaces sk0) 0 targetSize s hsm
              with hmm | hmm
            · exact absurd hmm (List.not_mem_nil _)
            · obtain ⟨bl, spaces, hml, hsp⟩ := hmm
              exact getIndexed_subset hml s hsp
          by_cases hfin : (fillSpaceListBySize blds minDiskSize [] (getIndexedWorkSpaces sk0) 0
              targetSize).2.2
          · simp only [hfin, if_true]
            exact skInv_successReturnSize hinv0 hfillsub
          · simp only [hfin, if_false, Bool.false_eq_true]
            have hgen := generateFillSize_ok diskFree genStream blds sk0
              (fillSpaceListBySize blds minDiskSize [] (getIndexedWorkSpaces sk0) 0 targetSize).1
              (fillSpaceListBySize blds minDiskSize [] (getIndexedWorkSpaces sk0) 0 targetSize).2.1
              targetSize
            cases herr : (generateFillSpaceListBySize diskFree genStream blds sk0
                (fillSpaceListBySize blds minDiskSize [] (getIndexedWorkSpaces sk0) 0 targetSize).1
                (fillSpaceListBySize blds minDiskSize [] (getIndexedWorkSpaces sk0) 0
                  targetSize).2.1 targetSize).2.2 with
            | some e => exact hgen.1 hinv0
            | none => exact skInv_successReturnSize (hgen.1 hinv0) (hgen.2.1 hfillsub)

theorem skInvWeak_ConfigureByPubKey (diskFree : Except Err Int) (nwsErr : SpaceID → Option Err)
    (blds : Nat → Int) (sk : SpaceKeeper) (pubKeyBL : List (Nat × Nat)) (pko : Nat → Nat)
    (ep em : Bool) (hinv : skInv sk) :
    skInvWeak (ConfigureByPubKey diskFree nwsErr blds sk pubKeyBL pko ep em).1 := by
  simp only [ConfigureByPubKey]
  by_cases hs : sk.started
  · rw [if_pos hs]
    exact skInv_weaken hinv
  · rw [if_neg hs]
    by_cases hcfg : sk.configuring
    · rw [if_pos hcfg]
      exact skInv_weaken hinv
    · rw [if_neg hcfg]
      have hinv0 : skInv { sk with configured := false } := skInv_congr rfl rfl hinv
      set sk0 : SpaceKeeper := { sk with configured := false } with hsk0
      have hgen := generateFillPK_ok diskFree nwsErr blds sk0 [] pubKeyBL pko
      cases herr : (generateFillSpaceListByPubKey diskFree nwsErr blds sk0 [] pubKeyBL pko).2.2 with
      | some e => exact skInv_weaken (hgen.1 hinv0)
      | none =>
        refine skInvWeak_successReturnPK pubKeyBL.length ep em (hgen.1 hinv0) ?_
        refine hgen.2.1 ?_
        intro s hsm
        exact absurd hsm (List.not_mem_nil _)

theorem skInvWeak_ConfigureByFlags (sk : SpaceKeeper) (flags : List WSState) (ep em : Bool)
    (hinv : skInv sk) (hidx : idxSub sk) :
    skInvWeak (ConfigureByFlags sk flags ep em).1 := by
  unfold ConfigureByFlags
  by_cases hs : sk.started
  · rw [if_pos hs]
    exact skInv_weaken hinv
  · rw [if_neg hs]
    by_cases hcfg : sk.configuring
    · rw [if_pos hcfg]
      exact skInv_weaken hinv
    · rw [if_neg hcfg]
      have hitems : ∀ s ∈ flags.foldl
          (fun acc st => acc ++ idxOf { sk with configured := false } st) [], s ∈ heapKeys sk.heap := by
        have key : ∀ (fl : List WSState) (acc : List SpaceID),
            (∀ s ∈ acc, s ∈ heapKeys sk.heap) →
            ∀ s ∈ fl.foldl (fun acc st => acc ++ idxOf { sk with configured := false } st) acc,
            s ∈ heapKeys sk.heap := by
          intro fl
          induction fl with
          | nil => exact fun acc hacc s hs => hacc s hs
          | cons st rest ih =>
            intro acc hacc s hs
            simp only [List.foldl] at hs
            refine ih _ ?_ s hs
            intro s2 hs2
            rcases List.mem_append.mp hs2 with hmm | hmm
            · exact hacc s2 hmm
            · obtain ⟨h1, h2, h3, h4⟩ := hidx
              cases st with
              | registered => exact h1 s2 hmm
              | plotting => exact h2 s2 hmm
              | ready => exact h3 s2 hmm
              | mining => exact h4 s2 hmm
        exact key flags [] (fun s hs => absurd hs (List.not_mem_nil _))
      have hclear : skInvWeak { ({ sk with configured := false } : SpaceKeeper) with
          wsList := ([] : List SpaceID) } := by
        refine ⟨hinv.1, List.nodup_nil, ?_, ?_⟩
        · intro s hsm
          exact absurd hsm (List.not_mem_nil _)
        · intro e _he hme
          exact absurd hme (List.not_mem_nil _)
      have hpush : skInvWeak (pushAndUse
          { ({ sk with configured := false } : SpaceKeeper) with wsList := ([] : List SpaceID) }
          (sortByPrio ((flags.foldl
              (fun acc st => acc ++ idxOf { sk with configured := false } st) []).map
            fun s => newQueuedWorkSpace
              { ({ sk with configured := false } : SpaceKeeper) with
                wsList := ([] : List SpaceID) } s true))) := by
        refine pushAndUse_inv_weak _ _ hclear ?_
        intro q hq
        rw [mem_sortByPrio] at hq
        obtain ⟨s, hsm, hqs⟩ := List.mem_map.mp hq
        have : q.sid = s := by rw [← hqs]; rfl
        rw [this]
        exact hitems s hsm
      simp only []
      by_cases hexec : (em || ep) = false
      · rw [if_pos hexec]
        set skp := pushAndUse
          { ({ sk with configured := false } : SpaceKeeper) with wsList := ([] : List SpaceID) }
          (sortByPrio ((flags.foldl
              (fun acc st => acc ++ idxOf { sk with configured := false } st) []).map
            fun s => newQueuedWorkSpace
              { ({ sk with configured := false } : SpaceKeeper) with
                wsList := ([] : List SpaceID) } s true)) with hskp
        by_cases hlen : (({ skp with queue := ([] : List QueuedWorkSpace) } : SpaceKeeper).wsList.map
            fun s => wsInfo { skp with queue := ([] : List QueuedWorkSpace) } s).length = 0
        · rw [if_pos hlen]
          exact skInvWeak_congr rfl rfl hpush
        · rw [if_neg hlen]
          exact skInvWeak_congr rfl rfl hpush
      · rw [if_neg hexec]
        set skp := pushAndUse
          { ({ sk with configured := false } : SpaceKeeper) with wsList := ([] : List SpaceID) }
          (sortByPrio ((flags.foldl
              (fun acc st => acc ++ idxOf { sk with configured := false } st) []).map
            fun s => newQueuedWorkSpace
              { ({ sk with configured := false } : SpaceKeeper) with
                wsList := ([] : List SpaceID) } s true)) with hskp
        by_cases hlen : (skp.wsList.map fun s => wsInfo skp s).length = 0
        · rw [if_pos hlen]
          exact skInvWeak_congr rfl rfl hpush
        · rw [if_neg hlen]
          exact skInvWeak_congr rfl rfl hpush

/-! ## C1 -/

/-- C1 (amended): assuming the using/list invariant and index coherence hold
before the call, each of the five action verbs and the planners
`ConfigureByBitLength` and `ConfigureBySize` preserve the full invariant
(`ws.using = true` iff `ws ∈ workSpaceList`, and `workSpaceList` has no two
entries with the same SpaceID); `ConfigureByPubKey` and `ConfigureByFlags`
guarantee only the weak direction — every member of the rebuilt
`workSpaceList` is `using` and the list is duplicate-free — because they
clear `workSpaceList` without resetting `using` on the previous members, so
a WorkSpace dropped from the list can keep a stale `using = true`. -/
theorem C1_using_list_invariant
    (sk : SpaceKeeper) (sid : SpaceID) (spErr dErr : SpaceID → Option Err)
    (diskFree diskFree2 diskFree3 : Except Err Int)
    (gs gs2 : List (Except Err (Nat × Nat))) (blds blds2 blds3 : Nat → Int) (mds : Int)
    (blCount : List (Nat × Int)) (ts : Int) (unlockErr : Option Err)
    (nwsErr : SpaceID → Option Err) (pkbl : List (Nat × Nat)) (pko : Nat → Nat)
    (flags : List WSState) (ep em ep2 em2 ep3 em3 : Bool)
    (hinv : skInv sk) (hidx : idxSub sk) :
    skInv (PlotWS sk sid).1 ∧ skInv (MineWS sk sid).1 ∧ skInv (StopWS spErr sk sid).1 ∧
    skInv (RemoveWS sk sid).1 ∧ skInv (DeleteWS dErr sk sid).1 ∧
    skInv (ConfigureByBitLength diskFree gs blds sk blCount ep em).1 ∧
    skInv (ConfigureBySize diskFree2 gs2 unlockErr blds2 mds sk ts).1 ∧
    skInvWeak (ConfigureByPubKey diskFree3 nwsErr blds3 sk pkbl pko ep2 em2).1 ∧
    skInvWeak (ConfigureByFlags sk flags ep3 em3).1 :=
  ⟨skInv_PlotWS sk sid hinv, skInv_MineWS sk sid hinv, skInv_StopWS spErr sk sid hinv,
   skInv_RemoveWS sk sid hinv, skInv_DeleteWS dErr sk sid hinv,
   skInv_ConfigureByBitLength diskFree gs blds sk blCount ep em hinv,
   skInv_ConfigureBySize diskFree2 gs2 unlockErr blds2 mds sk ts hinv,
   skInvWeak_ConfigureByPubKey diskFree3 nwsErr blds3 sk pkbl pko ep2 em2 hinv,
   skInvWeak_ConfigureByFlags sk flags ep3 em3 hinv hidx⟩

/-- C1 counterexample: the invariant `using ⇔ member of workSpaceList` does
not hold after every public operation as claimed: starting from a state
that satisfies it (one Ready WorkSpace, in use and listed) with coherent
indexes, `ConfigureByFlags` with an empty flag set empties `workSpaceList`
but leaves the WorkSpace's `using` flag true, so the invariant is broken
after the call. -/
theorem C1_counterexample :
    skInv skReadyUsing ∧ idxSub skReadyUsing ∧
      ¬ skInv (ConfigureByFlags skReadyUsing [] false false).1 := by
  decide

/-- C1 witness: the amended invariant theorem applied at a concrete state
and concrete oracles. -/
theorem C1_witness :
    (skInv skReadyUsing ∧ idxSub skReadyUsing) ∧
    (skInv (PlotWS skReadyUsing sidA).1 ∧ skInv (MineWS skReadyUsing sidA).1 ∧
     skInv (StopWS (fun _ => none) skReadyUsing sidA).1 ∧
     skInv (RemoveWS skReadyUsing sidA).1 ∧
     skInv (DeleteWS (fun _ => none) skReadyUsing sidA).1 ∧
     skInv (ConfigureByBitLength (.ok 100) [] (fun _ => 10) skReadyUsing [(24, 1)] false false).1 ∧
     skInv (ConfigureBySize (.ok 100) [] none (fun _ => 10) 10 skReadyUsing 10).1 ∧
     skInvWeak (ConfigureByPubKey (.ok 100) (fun _ => none) (fun _ => 10) skReadyUsing
       [(10, 24)] (fun _ => 1) false false).1 ∧
     skInvWeak (ConfigureByFlags skReadyUsing [.ready] false false).1) :=
  ⟨⟨by decide, by decide⟩,
   C1_using_list_invariant skReadyUsing sidA (fun _ => none) (fun _ => none)
     (.ok 100) (.ok 100) (.ok 100) [] [] (fun _ => 10) (fun _ => 10) (fun _ => 10) 10
     [(24, 1)] 10 none (fun _ => none) [(10, 24)] (fun _ => 1) [.ready]
     false false false false false false (by decide) (by decide)⟩

/-! ## C2 -/

/-- C2: for every action verb (Plot, Mine, Stop, Remove, Delete), when the
sid is absent from the `allState` index or the WorkSpace found there has
`using = false`, the verb returns `WorkSpaceDoesNotExist` and changes no
state. -/
theorem C2_unknown_or_unused_sid (sk : SpaceKeeper) (sid : SpaceID)
    (spErr dErr : SpaceID → Option Err)
    (h : ∀ d, alookup sid sk.heap = some d → d.usingFlag = false) :
    PlotWS sk sid = (sk, some .workSpaceDoesNotExist) ∧
    MineWS sk sid = (sk, some .workSpaceDoesNotExist) ∧
    StopWS spErr sk sid = (sk, some .workSpaceDoesNotExist) ∧
    RemoveWS sk sid = (sk, some .workSpaceDoesNotExist) ∧
    DeleteWS dErr sk sid = (sk, some .workSpaceDoesNotExist) := by
  refine ⟨?_, ?_, ?_, ?_, ?_⟩ <;>
    · first
      | unfold PlotWS
      | unfold MineWS
      | unfold StopWS
      | unfold RemoveWS
      | unfold DeleteWS
      split
      · rfl
      · rename_i d hl
        rw [if_pos (h d hl)]

/-- C2 witness: the guard theorem at a state whose only WorkSpace is not in
use, and at an absent sid. -/
theorem C2_witness :
    (∀ d, alookup sidB skReadyUsing.heap = some d → d.usingFlag = false) ∧
    PlotWS skReadyUsing sidB = (skReadyUsing, some .workSpaceDoesNotExist) ∧
    MineWS skReadyUsing sidB = (skReadyUsing, some .workSpaceDoesNotExist) ∧
    StopWS (fun _ => none) skReadyUsing sidB = (skReadyUsing, some .workSpaceDoesNotExist) ∧
    RemoveWS skReadyUsing sidB = (skReadyUsing, some .workSpaceDoesNotExist) ∧
    DeleteWS (fun _ => none) skReadyUsing sidB = (skReadyUsing, some .workSpaceDoesNotExist) :=
  ⟨by decide,
   C2_unknown_or_unused_sid skReadyUsing sidB (fun _ => none) (fun _ => none) (by decide)⟩

/-! ## C9 -/

/-- C9: `SignHash(sid, hash)` returns `WorkSpaceDoesNotExist` exactly when
the sid is absent from the `allState` index; for any present sid it
delegates to `wallet.SignMessage` with that WorkSpace's public key — for
every value of the WorkSpace's `using` flag and every value of the
`started` flag (neither is read), and without consulting the wallet lock
state (the wallet oracle alone decides the outcome). -/
theorem C9_signhash (signMessage : Nat → Nat → Except Err Nat) (sk : SpaceKeeper)
    (sid : SpaceID) (hash : Nat) :
    (alookup sid sk.heap = none →
      SignHash signMessage sk sid hash = .error .workSpaceDoesNotExist) ∧
    (∀ d, alookup sid sk.heap = some d →
      SignHash signMessage sk sid hash = signMessage sid.pubKey hash) ∧
    (∀ b c, SignHash signMessage { sk with started := b, configured := c } sid hash =
      SignHash signMessage sk sid hash) := by
  refine ⟨?_, ?_, ?_⟩
  · intro hnone
    unfold SignHash
    rw [hnone]
  · intro d hsome
    unfold SignHash
    rw [hsome]
  · intro b c
    unfold SignHash
    rfl

/-- C9 witness: the SignHash theorem at a present and at an absent sid. -/
theorem C9_witness :
    SignHash (fun pk h => .ok (pk + h)) skReadyUsing sidB 7 = .error .workSpaceDoesNotExist ∧
    SignHash (fun pk h => .ok (pk + h)) skReadyUsing sidA 7 = .ok (sidA.pubKey + 7) :=
  ⟨(C9_signhash (fun pk h => .ok (pk + h)) skReadyUsing sidB 7).1 (by decide),
   (C9_signhash (fun pk h => .ok (pk + h)) skReadyUsing sidA 7).2.1 ⟨.ready, true⟩ (by decide)⟩

/-! ## C10 -/

theorem queueDelete_shrinks {sid : SpaceID} : ∀ {l : List QueuedWorkSpace},
    (∃ q ∈ l, q.sid = sid) → (queueDelete sid l).length < l.length := by
  intro l
  induction l with
  | nil =>
    rintro ⟨q, hq, _⟩
    exact absurd hq (List.not_mem_nil _)
  | cons q0 rest ih =>
    rintro ⟨q, hq, hqs⟩
    by_cases hc : q0.sid = sid
    · simp only [queueDelete, if_pos hc, List.length_cons]
      calc (queueDelete sid rest).length ≤ rest.length := by
            clear ih hq
            induction rest with
            | nil => simp [queueDelete]
            | cons r rs ih2 =>
              by_cases hr : r.sid = sid
              · simp only [queueDelete, if_pos hr, List.length_cons]
                omega
              · simp only [queueDelete, if_neg hr, List.length_cons]
                omega
        _ < rest.length + 1 := by omega
    · rcases List.mem_cons.mp hq with rfl | hq2
      · exact absurd hqs hc
      · simp only [queueDelete, if_neg hc, List.length_cons]
        have := ih ⟨q, hq2, hqs⟩
        omega

/-- C10: `RemoveWS` and `DeleteWS` delete the sid's pending jobs from the
plotter queue before the state check, so on a live, `using` WorkSpace that
is in neither the Registered nor the Ready index (in particular one in
state Plotting or Mining) both return `WorkSpaceIsNotStill` with the queue
already stripped of the sid's jobs — every other component (store, indexes,
`workSpaceList`, state and `using` flag) unchanged — and when the queue
held a pending job for the sid it is not left unchanged. -/
theorem C10_remove_delete_queue_first (sk : SpaceKeeper) (sid : SpaceID) (d : WSData)
    (dErr : SpaceID → Option Err)
    (h1 : alookup sid sk.heap = some d) (h2 : d.usingFlag = true)
    (h3 : sid ∉ sk.regIdx) (h4 : sid ∉ sk.readyIdx)
    (_h5 : d.state = .plotting ∨ d.state = .mining) :
    RemoveWS sk sid = ({ sk with queue := queueDelete sid sk.queue },
      some .workSpaceIsNotStill) ∧
    DeleteWS dErr sk sid = ({ sk with queue := queueDelete sid sk.queue },
      some .workSpaceIsNotStill) ∧
    ((∃ q ∈ sk.queue, q.sid = sid) → queueDelete sid sk.queue ≠ sk.queue) := by
  have hnotry : ¬ (sid ∈ ({ sk with queue := queueDelete sid sk.queue } : SpaceKeeper).regIdx ∨
      sid ∈ ({ sk with queue := queueDelete sid sk.queue } : SpaceKeeper).readyIdx) := by
    rintro (hmm | hmm)
    · exact h3 hmm
    · exact h4 hmm
  refine ⟨?_, ?_, ?_⟩
  · simp only [RemoveWS, h1, h2]
    rw [if_neg (by simp)]
    rw [if_neg hnotry]
  · simp only [DeleteWS, h1, h2]
    rw [if_neg (by simp)]
    rw [if_neg hnotry]
  · intro hex heq
    have := queueDelete_shrinks hex
    rw [heq] at this
    omega

/-- C10 witness: Remove and Delete on a Mining WorkSpace whose sid has a
pending job in the queue. -/
theorem C10_witness :
    (alookup sidA skMiningQueued.heap = some ⟨.mining, true⟩ ∧ sidA ∉ skMiningQueued.regIdx ∧
      sidA ∉ skMiningQueued.readyIdx) ∧
    RemoveWS skMiningQueued sidA = ({ skMiningQueued with queue := [] },
      some .workSpaceIsNotStill) ∧
    DeleteWS (fun _ => none) skMiningQueued sidA = ({ skMiningQueued with queue := [] },
      some .workSpaceIsNotStill) ∧
    queueDelete sidA skMiningQueued.queue ≠ skMiningQueued.queue := by
  have h := C10_remove_delete_queue_first skMiningQueued sidA ⟨.mining, true⟩ (fun _ => none)
    (by decide) (by decide) (by decide) (by decide) (by decide)
  refine ⟨⟨by decide, by decide, by decide⟩, ?_, ?_, ?_⟩
  · rw [h.1]
    decide
  · rw [h.2.1]
    decide
  · exact h.2.2 ⟨⟨sidA, false, prioKey sidA ⟨.mining, true⟩⟩, by decide, rfl⟩

/-! ## C5 -/

/-- C5 (amended): with a seeded directory set and the service stopped,
`ResetDBDirs(newDirs)` returns nil exactly when `newDirs` has the same
length as the existing set and every element of `newDirs` occurs somewhere
in the existing set; every other `newDirs` gets
`SpaceKeeperChangeDBDirs`.  When either list holds duplicates this is
weaker than order-insensitive element-wise (multiset) equality: the
membership test collapses duplicates. -/
theorem C5_resetdbdirs (genInitErr : Option Err) (sk : SpaceKeeper) (newDirs : List String)
    (h1 : sk.started = false) (h2 : sk.dbDirs ≠ []) :
    (ResetDBDirs genInitErr sk newDirs).2 = none ↔
      newDirs.length = sk.dbDirs.length ∧ ∀ d ∈ newDirs, d ∈ sk.dbDirs := by
  unfold ResetDBDirs
  rw [if_neg (by rw [h1]; simp)]
  rw [if_neg (by simpa using h2)]
  by_cases hc : strSliceEqual newDirs sk.dbDirs = false
  · rw [if_pos hc]
    simp only [strSliceEqual] at hc
    constructor
    · intro hcontra
      exact absurd hcontra (by simp)
    · intro ⟨hlen, hall⟩
      rw [Bool.and_eq_false_iff] at hc
      rcases hc with hc | hc
      · rw [beq_eq_false_iff_ne] at hc
        exact absurd hlen hc
      · rw [List.all_eq_false] at hc
        obtain ⟨d, hd, hdc⟩ := hc
        simp at hdc
        exact absurd (hall d hd) hdc
  · rw [if_neg hc]
    simp only [strSliceEqual, Bool.not_eq_false, Bool.and_eq_true, beq_iff_eq,
      List.all_eq_true] at hc
    refine ⟨fun _ => ⟨hc.1, fun d hd => by simpa using hc.2 d hd⟩, fun _ => rfl⟩

/-- C5 counterexample: with existing directories `["a", "b"]` the call with
`["a", "a"]` is accepted (nil) although the two lists are not equal as
multisets — the claimed order-insensitive element-wise equality is not
what the code checks. -/
theorem C5_counterexample :
    (ResetDBDirs none { skEmpty with dbDirs := ["a", "b"] } ["a", "a"]).2 = none ∧
      ¬ (["a", "a"] : List String).Perm ["a", "b"] := by
  constructor
  · rfl
  · intro hperm
    have : (["a", "a"] : List String).count "b" = (["a", "b"] : List String).count "b" :=
      hperm.count_eq "b"
    simp at this

/-- C5 witness: the amended equivalence applied to a permutation (accepted)
and mirrored through its statement. -/
theorem C5_witness :
    ({ skEmpty with dbDirs := ["a", "b"] } : SpaceKeeper).started = false ∧
    ({ skEmpty with dbDirs := ["a", "b"] } : SpaceKeeper).dbDirs ≠ [] ∧
    (ResetDBDirs none { skEmpty with dbDirs := ["a", "b"] } ["b", "a"]).2 = none := by
  refine ⟨rfl, by decide, ?_⟩
  exact (C5_resetdbdirs none { skEmpty with dbDirs := ["a", "b"] } ["b", "a"] rfl
    (by decide)).mpr ⟨by decide, by decide⟩

/-! ## C6 -/

theorem PlotWS_none {sk : SpaceKeeper} {sid : SpaceID} (hl : alookup sid sk.heap = none) :
    PlotWS sk sid = (sk, some .workSpaceDoesNotExist) := by
  unfold PlotWS
  rw [hl]

theorem PlotWS_notusing {sk : SpaceKeeper} {sid : SpaceID} {d : WSData}
    (hl : alookup sid sk.heap = some d) (hu : d.usingFlag = false) :
    PlotWS sk sid = (sk, some .workSpaceDoesNotExist) := by
  simp only [PlotWS, hl]
  rw [if_pos hu]

theorem PlotWS_reg {sk : SpaceKeeper} {sid : SpaceID} {d : WSData}
    (hl : alookup sid sk.heap = some d) (hu : ¬ d.usingFlag = false) (hr : sid ∈ sk.regIdx) :
    PlotWS sk sid =
      ({ sk with pendingCh := sk.pendingCh ++ [newQueuedWorkSpace sk sid false] }, none) := by
  simp only [PlotWS, hl]
  rw [if_neg hu, if_pos hr]

theorem PlotWS_plot_nopop {sk : SpaceKeeper} {sid : SpaceID} {d : WSData}
    (hl : alookup sid sk.heap = some d) (hu : ¬ d.usingFlag = false) (hr : sid ∉ sk.regIdx)
    (hp : sid ∈ sk.plotIdx) (hpop : sk.popped = none) :
    PlotWS sk sid = (sk, some .workSpaceIsNotPlotting) := by
  simp only [PlotWS, hl, hpop]
  rw [if_neg hu, if_neg hr, if_pos hp]

theorem PlotWS_plot_miss {sk : SpaceKeeper} {sid : SpaceID} {d : WSData} {q : QueuedWorkSpace}
    (hl : alookup sid sk.heap = some d) (hu : ¬ d.usingFlag = false) (hr : sid ∉ sk.regIdx)
    (hp : sid ∈ sk.plotIdx) (hpop : sk.popped = some q) (hqs : ¬ q.sid = sid) :
    PlotWS sk sid = (sk, some .workSpaceIsNotPlotting) := by
  simp only [PlotWS, hl, hpop]
  rw [if_neg hu, if_neg hr, if_pos hp, if_pos (by simpa using hqs)]

theorem PlotWS_plot_hit {sk : SpaceKeeper} {sid : SpaceID} {d : WSData} {q : QueuedWorkSpace}
    (hl : alookup sid sk.heap = some d) (hu : ¬ d.usingFlag = false) (hr : sid ∉ sk.regIdx)
    (hp : sid ∈ sk.plotIdx) (hpop : sk.popped = some q) (hqs : q.sid = sid) :
    PlotWS sk sid = ({ sk with popped := some { q with wouldMining := false } }, none) := by
  simp only [PlotWS, hl, hpop]
  rw [if_neg hu, if_neg hr, if_pos hp, if_neg (by simpa using hqs)]

theorem PlotWS_still {sk : SpaceKeeper} {sid : SpaceID} {d : WSData}
    (hl : alookup sid sk.heap = some d) (hu : ¬ d.usingFlag = false) (hr : sid ∉ sk.regIdx)
    (hp : sid ∉ sk.plotIdx) : PlotWS sk sid = (sk, none) := by
  simp only [PlotWS, hl]
  rw [if_neg hu, if_neg hr, if_neg hp]

/-- C6 (amended): `Plot` on a live, `using` WorkSpace that is in neither
the Registered nor the Plotting index (i.e. one in Ready or Mining) is a
no-op returning nil; and two successive `Plot` calls on the same sid are
equivalent to one whenever the WorkSpace is not in the Registered index —
on a Registered WorkSpace each call appends a fresh job to the
`newQueuedWorkSpaceCh` handoff channel (the code has no dedup check, its
TODO comment notwithstanding), so twice is not once there. -/
theorem C6_plot_idempotent (sk : SpaceKeeper) (sid : SpaceID) (d : WSData)
    (h1 : alookup sid sk.heap = some d) (h2 : d.usingFlag = true)
    (h3 : sid ∉ sk.regIdx) (h4 : sid ∉ sk.plotIdx) :
    PlotWS sk sid = (sk, none) ∧
    (∀ (sk2 : SpaceKeeper) (sid2 : SpaceID), sid2 ∉ sk2.regIdx →
      PlotWS (PlotWS sk2 sid2).1 sid2 = PlotWS sk2 sid2) ∧
    (sid ∈ skRegUsing.regIdx →
      (PlotWS (PlotWS skRegUsing sid).1 sid).1.pendingCh.length =
        (PlotWS skRegUsing sid).1.pendingCh.length + 1) := by
  refine ⟨?_, ?_, ?_⟩
  · exact PlotWS_still h1 (by rw [h2]; simp) h3 h4
  · intro sk2 sid2 hreg
    cases hl : alookup sid2 sk2.heap with
    | none =>
      rw [PlotWS_none hl]
      exact PlotWS_none hl
    | some d2 =>
      by_cases hu : d2.usingFlag = false
      · rw [PlotWS_notusing hl hu]
        exact PlotWS_notusing hl hu
      · by_cases hp : sid2 ∈ sk2.plotIdx
        · cases hpop : sk2.popped with
          | none =>
            rw [PlotWS_plot_nopop hl hu hreg hp hpop]
            exact PlotWS_plot_nopop hl hu hreg hp hpop
          | some q =>
            by_cases hqs : q.sid = sid2
            · rw [PlotWS_plot_hit hl hu hreg hp hpop hqs]
              exact @PlotWS_plot_hit { sk2 with popped := some { q with wouldMining := false } }
                sid2 d2 { q with wouldMining := false } hl hu hreg hp rfl hqs
            · rw [PlotWS_plot_miss hl hu hreg hp hpop hqs]
              exact PlotWS_plot_miss hl hu hreg hp hpop hqs
        · rw [PlotWS_still hl hu hreg hp]
          exact PlotWS_still hl hu hreg hp
  · intro hm
    have hsid : sid ∈ [sidA] := hm
    have hsid2 : sid = sidA := by simpa using hsid
    subst hsid2
    decide

/-- C6 counterexample: on a Registered, `using` WorkSpace two successive
`Plot` calls are not equivalent to one — the second call appends a second
pending job to the handoff channel. -/
theorem C6_counterexample :
    PlotWS (PlotWS skRegUsing sidA).1 sidA ≠ PlotWS skRegUsing sidA ∧
    (PlotWS (PlotWS skRegUsing sidA).1 sidA).1.pendingCh.length = 2 ∧
    (PlotWS skRegUsing sidA).1.pendingCh.length = 1 := by
  decide

/-- C6 witness: the no-op and idempotence parts applied to a Ready
WorkSpace. -/
theorem C6_witness :
    PlotWS skReadyUsing sidA = (skReadyUsing, none) ∧
    PlotWS (PlotWS skReadyUsing sidA).1 sidA = PlotWS skReadyUsing sidA := by
  have h := C6_plot_idempotent skReadyUsing sidA ⟨.ready, true⟩ (by decide) (by decide)
    (by decide) (by decide)
  exact ⟨h.1, h.2.1 skReadyUsing sidA (by decide)⟩

/-! ## C7 -/

/-- C7: `GetProofs` on a started SpaceKeeper with a flags filter matching no
WorkSpace submits no job to the worker pool and returns an empty result
with a nil error; the wait over the (empty) fan-out set is safe — in the
model, the fold over the empty job list is the identity, mirroring the
`wg.Add(1); wg.Done(); wg.Wait()` guard of capacity.go lines 591-593 that
makes the Go wait return immediately when no job was submitted. -/
theorem C7_getproofs_empty (backend : SpaceID → Nat → Except Nat Nat) (sk : SpaceKeeper)
    (flags : List WSState) (challenge : Nat)
    (h1 : sk.started = true) (h2 : getWsByFlags sk flags = []) :
    GetProofs backend sk flags challenge = (sk, .ok []) := by
  unfold GetProofs
  rw [if_neg (by rw [h1]; simp)]
  rw [h2]
  rfl

/-- C7 witness: an empty filter on a started SpaceKeeper with one
WorkSpace. -/
theorem C7_witness :
    ({ skReadyUsing with started := true } : SpaceKeeper).started = true ∧
    getWsByFlags { skReadyUsing with started := true } [] = [] ∧
    GetProofs (fun _ _ => .ok 0) { skReadyUsing with started := true } [] 5 =
      ({ skReadyUsing with started := true }, .ok []) :=
  ⟨rfl, by decide,
   C7_getproofs_empty (fun _ _ => .ok 0) { skReadyUsing with started := true } [] 5 rfl
     (by decide)⟩

/-! ## C8 -/

theorem cacheGet_cacheAdd (k : SpaceID × Nat) (v : WorkSpaceProofRec)
    (c : List ((SpaceID × Nat) × WorkSpaceProofRec)) : cacheGet k (cacheAdd k v c) = some v := by
  unfold cacheAdd
  rw [show ((k, v) :: cacheEraseKey k c).take proofCacheSize =
    (k, v) :: (cacheEraseKey k c).take (proofCacheSize - 1) from rfl]
  unfold cacheGet
  rw [if_pos rfl]

/-- C8: when the plot backend fails for a live, `using` WorkSpace on a
started SpaceKeeper and the cache holds no entry for `(sid, challenge)`,
the public `GetProof` returns a **nil** error together with a proof record
whose `error` field carries the backend error (the `proof` field empty);
the record is inserted into the ProofCache by the same `cacheAdd` path a
successful proof takes; and a subsequent call with the same sid and
challenge is served from the cache — it returns the same record and the
same state for **every** backend, i.e. without consulting the backend
again. -/
theorem C8_backend_error_cached (backend : SpaceID → Nat → Except Nat Nat) (sk : SpaceKeeper)
    (sid : SpaceID) (challenge : Nat) (d : WSData) (e : Nat)
    (h1 : sk.started = true) (h2 : alookup sid sk.heap = some d) (h3 : d.usingFlag = true)
    (h4 : cacheGet (cacheKey sid challenge) sk.proofCache = none)
    (h5 : backend sid challenge = .error e) :
    (mkProofRec sid (.error e)).error = some e ∧ (mkProofRec sid (.error e)).proof = none ∧
    GetProof backend sk sid challenge =
      ({ sk with proofCache :=
          (cacheAdd (cacheKey sid challenge) (mkProofRec sid (.error e)) sk.proofCache) },
        .ok (mkProofRec sid (.error e))) ∧
    (∀ backend2 : SpaceID → Nat → Except Nat Nat,
      GetProof backend2 (GetProof backend sk sid challenge).1 sid challenge =
        ((GetProof backend sk sid challenge).1, .ok (mkProofRec sid (.error e)))) := by
  have hfirst : GetProof backend sk sid challenge =
      ({ sk with proofCache :=
          (cacheAdd (cacheKey sid challenge) (mkProofRec sid (.error e)) sk.proofCache) },
        .ok (mkProofRec sid (.error e))) := by
    unfold GetProof
    rw [if_neg (by rw [h1]; simp)]
    simp only [h2]
    rw [if_pos h3]
    unfold getProofInner
    rw [h4, h5]
  refine ⟨rfl, rfl, hfirst, ?_⟩
  intro backend2
  rw [hfirst]
  unfold GetProof
  rw [if_neg (by rw [h1]; simp)]
  simp only [h2]
  rw [if_pos h3]
  unfold getProofInner
  rw [show cacheGet (cacheKey sid challenge)
      (cacheAdd (cacheKey sid challenge) (mkProofRec sid (.error e)) sk.proofCache) =
    some (mkProofRec sid (.error e)) from cacheGet_cacheAdd _ _ _]

/-- C8 witness: a failing backend on a started SpaceKeeper with an empty
cache; the error record is returned with a nil error, cached, and the
second call is answered from the cache even under a backend that would
succeed. -/
theorem C8_witness :
    GetProof (fun _ _ => .error 42) { skReadyUsing with started := true } sidA 5 =
      ({ ({ skReadyUsing with started := true } : SpaceKeeper) with proofCache :=
          (cacheAdd (cacheKey sidA 5) (mkProofRec sidA (.error 42))
            ({ skReadyUsing with started := true } : SpaceKeeper).proofCache) },
        .ok (mkProofRec sidA (.error 42))) ∧
    GetProof (fun _ _ => .ok 7)
        (GetProof (fun _ _ => .error 42) { skReadyUsing with started := true } sidA 5).1 sidA 5 =
      ((GetProof (fun _ _ => .error 42) { skReadyUsing with started := true } sidA 5).1,
        .ok (mkProofRec sidA (.error 42))) := by
  have h := C8_backend_error_cached (fun _ _ => .error 42) { skReadyUsing with started := true }
    sidA 5 ⟨.ready, true⟩ 42 rfl (by decide) (by decide) (by decide) rfl
  exact ⟨h.2.2.1, h.2.2.2 (fun _ _ => .ok 7)⟩

/-! ## C4 -/

theorem greedyFill_nil (target cur : Int) : greedyFill target cur [] = ([], cur) := rfl

theorem greedyFill_cons (target cur : Int) (s : SpaceID) (sz : Int)
    (l : List (SpaceID × Int)) :
    greedyFill target cur ((s, sz) :: l) =
      if cur + sz ≤ target then
        (s :: (greedyFill target (cur + sz) l).1, (greedyFill target (cur + sz) l).2)
      else greedyFill target cur l := rfl

theorem fillBucket_eq_greedy (sz target : Int) : ∀ (spaces dst : List SpaceID) (cur : Int),
    fillBucket sz target spaces dst cur =
      (dst ++ (greedyFill target cur (spaces.map (fun s => (s, sz)))).1,
       (greedyFill target cur (spaces.map (fun s => (s, sz)))).2) := by
  intro spaces
  induction spaces with
  | nil =>
    intro dst cur
    simp [fillBucket, greedyFill]
  | cons s rest ih =>
    intro dst cur
    rw [List.map_cons, greedyFill_cons]
    simp only [fillBucket]
    by_cases hc : cur + sz > target
    · rw [if_pos hc, if_neg (by omega)]
      exact ih dst cur
    · rw [if_neg hc, if_pos (by omega)]
      rw [ih (dst ++ [s]) (cur + sz)]
      simp

theorem greedyFill_append (target : Int) : ∀ (l1 l2 : List (SpaceID × Int)) (cur : Int),
    greedyFill target cur (l1 ++ l2) =
      ((greedyFill target cur l1).1 ++ (greedyFill target (greedyFill target cur l1).2 l2).1,
       (greedyFill target (greedyFill target cur l1).2 l2).2) := by
  intro l1
  induction l1 with
  | nil =>
    intro l2 cur
    simp [greedyFill_nil]
  | cons e rest ih =>
    intro l2 cur
    obtain ⟨s, sz⟩ := e
    rw [List.cons_append, greedyFill_cons, greedyFill_cons]
    by_cases hc : cur + sz ≤ target
    · rw [if_pos hc, if_pos hc, ih l2 (cur + sz)]
      simp
    · rw [if_neg hc, if_neg hc]
      exact ih l2 cur

theorem fillFold_eq_greedy (blds : Nat → Int) (target : Int)
    (srcMap : List (Nat × List SpaceID)) : ∀ (bls : List Nat) (dst : List SpaceID) (cur : Int),
    bls.foldl (fun (acc : List SpaceID × Int) (bl : Nat) =>
        match mlookup srcMap bl with
        | none => acc
        | some spaces => fillBucket (blds bl) target spaces acc.1 acc.2) (dst, cur) =
      (dst ++ (greedyFill target cur
          ((bls.map (fun bl =>
            ((mlookup srcMap bl).getD []).map (fun s => (s, blds bl)))).flatten)).1,
       (greedyFill target cur
          ((bls.map (fun bl =>
            ((mlookup srcMap bl).getD []).map (fun s => (s, blds bl)))).flatten)).2) := by
  intro bls
  induction bls with
  | nil =>
    intro dst cur
    simp [greedyFill_nil]
  | cons bl rest ih =>
    intro dst cur
    rw [List.foldl_cons, List.map_cons, List.flatten_cons, greedyFill_append]
    cases hl : mlookup srcMap bl with
    | none =>
      show List.foldl _ (dst, cur) rest = _
      rw [ih dst cur]
      simp [greedyFill_nil]
    | some spaces =>
      show List.foldl _ (fillBucket (blds bl) target spaces dst cur) rest = _
      rw [fillBucket_eq_greedy]
      rw [ih]
      simp

/-- C4: (i) `ConfigureBySize` with a target below
`BitLengthDiskSize[usableBitLength()[0]]` (that is, below the size of a
bit-length-24 plot) fails with `ConfigUnderSizeTarget`; (ii) the fill from
the indexed buckets is exactly a greedy pass over the buckets flattened in
strictly descending bit-length order (28, 26, 24) in which a candidate
whose size would push the accumulated size past the target is skipped
whole and never partially added — the produced list, the accumulated size
and (iii) the completion flag, which is raised exactly when the
accumulated size equals the target or the remaining deficit is below
`MinDiskSize`, all coincide with the greedy characterization. -/
theorem C4_configure_by_size (diskFree : Except Err Int)
    (genStream : List (Except Err (Nat × Nat))) (unlockErr : Option Err) (blds : Nat → Int)
    (mds : Int) (sk : SpaceKeeper) (ts : Int) (dst : List SpaceID)
    (srcMap : List (Nat × List SpaceID)) (cur ts2 : Int)
    (h1 : sk.started = false) (h2 : sk.configuring = false)
    (h3 : ts < blds (usableBitLength.headD 0)) :
    (ConfigureBySize diskFree genStream unlockErr blds mds sk ts).2 =
      .error .configUnderSizeTarget ∧
    (fillSpaceListBySize blds mds dst srcMap cur ts2).1 =
      dst ++ (greedyFill ts2 cur (annotBuckets blds srcMap)).1 ∧
    (fillSpaceListBySize blds mds dst srcMap cur ts2).2.1 =
      (greedyFill ts2 cur (annotBuckets blds srcMap)).2 ∧
    ((fillSpaceListBySize blds mds dst srcMap cur ts2).2.2 = true ↔
      ((greedyFill ts2 cur (annotBuckets blds srcMap)).2 = ts2 ∨
        ts2 - (greedyFill ts2 cur (annotBuckets blds srcMap)).2 < mds)) := by
  have hfold := fillFold_eq_greedy blds ts2 srcMap usableBitLength.reverse dst cur
  have hfill : fillSpaceListBySize blds mds dst srcMap cur ts2 =
      if (greedyFill ts2 cur (annotBuckets blds srcMap)).2 = ts2 ∨
          ts2 - (greedyFill ts2 cur (annotBuckets blds srcMap)).2 < mds then
        (dst ++ (greedyFill ts2 cur (annotBuckets blds srcMap)).1,
         (greedyFill ts2 cur (annotBuckets blds srcMap)).2, true)
      else
        (dst ++ (greedyFill ts2 cur (annotBuckets blds srcMap)).1,
         (greedyFill ts2 cur (annotBuckets blds srcMap)).2, false) := by
    simp only [fillSpaceListBySize, annotBuckets] at *
    rw [hfold]
  refine ⟨?_, ?_, ?_, ?_⟩
  · simp only [ConfigureBySize]
    rw [if_neg (by rw [h1]; simp), if_neg (by rw [h2]; simp), if_pos h3]
  · rw [hfill]
    by_cases hc : (greedyFill ts2 cur (annotBuckets blds srcMap)).2 = ts2 ∨
        ts2 - (greedyFill ts2 cur (annotBuckets blds srcMap)).2 < mds
    · rw [if_pos hc]
    · rw [if_neg hc]
  · rw [hfill]
    by_cases hc : (greedyFill ts2 cur (annotBuckets blds srcMap)).2 = ts2 ∨
        ts2 - (greedyFill ts2 cur (annotBuckets blds srcMap)).2 < mds
    · rw [if_pos hc]
    · rw [if_neg hc]
  · rw [hfill]
    by_cases hc : (greedyFill ts2 cur (annotBuckets blds srcMap)).2 = ts2 ∨
        ts2 - (greedyFill ts2 cur (annotBuckets blds srcMap)).2 < mds
    · rw [if_pos hc]
      simpa using hc
    · rw [if_neg hc]
      simpa using hc

/-- C4 witness: the under-size guard and the greedy characterization at
concrete buckets (a 26 bucket drawn before a 24 bucket, one overshooting
candidate skipped). -/
theorem C4_witness :
    (ConfigureBySize (.ok 100) [] none (fun bl => (bl : Int)) 10 skEmpty 5).2 =
      .error .configUnderSizeTarget ∧
    (fillSpaceListBySize (fun bl => (bl : Int)) 10 [] [(24, [sidA]), (26, [sidB])] 0 30).1 =
      [] ++ (greedyFill 30 0 (annotBuckets (fun bl => (bl : Int)) [(24, [sidA]), (26, [sidB])])).1 ∧
    (fillSpaceListBySize (fun bl => (bl : Int)) 10 [] [(24, [sidA]), (26, [sidB])] 0 30).2.1 =
      (greedyFill 30 0 (annotBuckets (fun bl => (bl : Int)) [(24, [sidA]), (26, [sidB])])).2 := by
  have h := C4_configure_by_size (.ok 100) [] none (fun bl => (bl : Int)) 10 skEmpty 5 []
    [(24, [sidA]), (26, [sidB])] 0 30 rfl rfl (by decide)
  exact ⟨h.1, h.2.1, h.2.2.1⟩

/-! ## C3 -/

/-- C3 (amended): the planners do not uniformly turn an empty selection into
`SpaceKeeperConfiguredNothing`.  On a stopped, non-configuring SpaceKeeper:
(i) `ConfigureByBitLength` with an empty target map does return
`SpaceKeeperConfiguredNothing`; (ii) so does `ConfigureBySize` when the
indexed store is empty and the (admissible) target is below `MinDiskSize`,
so the fill finishes empty; but (iii) `ConfigureByPubKey` with an empty
target map passes its `len(result) == len(target)` check and returns an
empty list with a nil error; and (iv) `ConfigureByFlags` never returns an
error at all past the two entry guards — an empty selection yields `ok []`
(and even sets `configured`). -/
theorem C3_configured_nothing (diskFree : Except Err Int)
    (genStream genStream2 : List (Except Err (Nat × Nat))) (blds blds2 : Nat → Int)
    (mds ts : Int) (fr : Int) (nwsErr : SpaceID → Option Err) (pko : Nat → Nat)
    (sk : SpaceKeeper) (ep em ep2 em2 : Bool) (flags : List WSState)
    (h1 : sk.started = false) (h2 : sk.configuring = false)
    (h3 : ¬ ts < blds2 (usableBitLength.headD 0)) (h4 : ts < mds)
    (h5 : sk.heap = []) (h6 : 0 < fr) :
    (ConfigureByBitLength diskFree genStream blds sk [] ep em).2 =
      .error .spaceKeeperConfiguredNothing ∧
    (ConfigureBySize diskFree genStream2 none blds2 mds sk ts).2 =
      .error .spaceKeeperConfiguredNothing ∧
    (ConfigureByPubKey (.ok fr) nwsErr blds sk [] pko ep2 em2).2 = .ok [] ∧
    (∀ ep3 em3 : Bool, ∃ l, (ConfigureByFlags sk flags ep3 em3).2 = .ok l) := by
  have hs : ¬ sk.started = true := by rw [h1]; simp
  have hcfg : ¬ sk.configuring = true := by rw [h2]; simp
  refine ⟨?_, ?_, ?_, ?_⟩
  · simp only [ConfigureByBitLength]
    rw [if_neg hs, if_neg hcfg]
    have hfill : fillSpaceListByBitLength []
        (getIndexedWorkSpaces { sk with configured := false }) [] [] = ([], [], true) := rfl
    rw [hfill]
    show (successReturnBL { sk with configured := false } [] ep em).2 =
      .error .spaceKeeperConfiguredNothing
    simp only [successReturnBL]
    rw [if_pos (show List.length ([] : List SpaceID) = 0 from rfl)]
  · simp only [ConfigureBySize]
    rw [if_neg hs, if_neg hcfg, if_neg h3]
    have hheap : ({ sk with configured := false } : SpaceKeeper).heap = [] := h5
    have hsrc : getIndexedWorkSpaces { sk with configured := false } = [] := by
      unfold getIndexedWorkSpaces
      rw [hheap]
      rfl
    rw [hsrc]
    have hfill : fillSpaceListBySize blds2 mds [] [] 0 ts =
        if (0 : Int) = ts ∨ ts - 0 < mds then ([], 0, true) else ([], 0, false) := rfl
    rw [if_pos (Or.inr (by omega))] at hfill
    rw [hfill]
    show (successReturnSize { sk with configured := false } []).2 =
      .error .spaceKeeperConfiguredNothing
    simp only [successReturnSize]
    rw [if_pos (show List.length ([] : List SpaceID) = 0 from rfl)]
  · simp only [ConfigureByPubKey]
    rw [if_neg hs, if_neg hcfg]
    have hgen : generateFillSpaceListByPubKey (.ok fr) nwsErr blds
        { sk with configured := false } [] [] pko =
        ({ sk with configured := false }, [], none) := by
      simp only [generateFillSpaceListByPubKey, checkOSDiskSize, List.foldl_nil]
      rw [if_neg (by omega), if_neg (by omega)]
      rfl
    rw [hgen]
    show (successReturnPK { sk with configured := false } [] ([] : List (Nat × Nat)).length
      ep2 em2).2 = .ok []
    simp only [successReturnPK]
    rw [if_neg (by simp)]
    rfl
  · intro ep3 em3
    simp only [ConfigureByFlags]
    rw [if_neg hs, if_neg hcfg]
    exact ⟨_, rfl⟩

/-- C3 counterexample: a planner call with an empty resulting selection that
does not return `SpaceKeeperConfiguredNothing`: `ConfigureByFlags` on an
empty flag set returns `ok []` with a nil error (and raises
`configured`). -/
theorem C3_counterexample :
    (ConfigureByFlags skEmpty [] false false).2 = .ok [] ∧
    (ConfigureByFlags skEmpty [] false false).1.configured = true :=
  ⟨rfl, rfl⟩

/-- C3 witness: the four planner conclusions at a concrete stopped, empty
SpaceKeeper. -/
theorem C3_witness :
    (ConfigureByBitLength (.ok 100) [] (fun _ => 10) skEmpty [] false false).2 =
      .error .spaceKeeperConfiguredNothing ∧
    (ConfigureBySize (.ok 100) [] none (fun _ => 10) 100 skEmpty 10).2 =
      .error .spaceKeeperConfiguredNothing ∧
    (ConfigureByPubKey (.ok 100) (fun _ => none) (fun _ => 10) skEmpty [] (fun _ => 0)
      false false).2 = .ok [] ∧
    (∃ l, (ConfigureByFlags skEmpty [.registered] true false).2 = .ok l) := by
  have h := C3_configured_nothing (.ok 100) [] [] (fun _ => 10) (fun _ => 10) 100 10 100
    (fun _ => none) (fun _ => 0) skEmpty false false false false [.registered]
    rfl rfl (by decide) (by decide) rfl (by decide)
  exact ⟨h.1, h.2.1, h.2.2.1, h.2.2.2 true false⟩
